import Mathlib

/-!
Verification development for the nix-gl-host driver discovery, caching and
patch pipeline (`src/nixglhost/main.py`, `src/nixglhost/nvidia.py`,
`src/nixglhost/cli.py`).

The Python modules are shallowly embedded:

* Pure data types (`ResolvedLib`, `LibraryPath`, `CacheDirContent`) become
  Lean structures; their `__eq__` methods become boolean functions; Python
  `set(xs) == set(ys)` comparison is modelled as mutual membership with
  respect to the element `__eq__`.
* The JSON cache file is modelled at the level of the JSON document tree.
  `json.dumps(..., sort_keys=True)` is a deterministic, injective encoding
  of this tree, so equality of trees models byte equality of the encoded
  files, and `json.loads` is modelled as its inverse, failing on text that
  is not a JSON document.
* The filesystem is explicit state: a list of directories, a list of
  unreadable directories and a list of file entries (directory, name,
  content, mtime, size).  `os` / `shutil` calls become pure operations on
  this state; fallible operations return `Except` / a `Res` result that
  also carries the final filesystem state.
* Timestamps are modelled as integers: the code only ever compares them
  for equality.
* External collaborators are oracles carried in a context: the patchelf
  subprocess is a function from its argv to an exit code, and
  `hashlib.sha256(...).hexdigest()` is a function from strings to strings.
* All directory path strings are assumed absolute and normalized (no
  trailing slash), as produced by the code's callers, so `os.path.join`
  is string concatenation with a slash and `os.path.abspath` is the
  identity on the joined paths.
-/

namespace NixGlHost

/-! ## Path helpers -/

/-- Model of `os.path.join(d, f)` for a normalized absolute directory `d`
(no trailing slash). `os.path.abspath` is the identity on such joins. -/
def pjoin (d f : String) : String := d ++ "/" ++ f

/-- Model of `os.path.split(p)[0]`: everything before the last slash. -/
def dirnameOf (p : String) : String :=
  ((p.toList.reverse.dropWhile (fun c => c != '/')).drop 1).reverse.asString

/-- Model of `os.path.basename(p)`: everything after the last slash. -/
def basenameOf (p : String) : String :=
  (p.toList.reverse.takeWhile (fun c => c != '/')).reverse.asString

/-- Boolean list-prefix test used by the path and pattern machinery. -/
def prefixMatch : List Char → List Char → Bool
  | [], _ => true
  | _ :: _, [] => false
  | a :: as, b :: bs => a == b && prefixMatch as bs

/-- Boolean substring test: does `pat` occur contiguously in the subject? -/
def substrMatch (pat : List Char) : List Char → Bool
  | [] => prefixMatch pat []
  | c :: rest => prefixMatch pat (c :: rest) || substrMatch pat rest

/-- `underB root p` holds when path `p` is `root` itself or lies below the
directory `root` (`root ++ "/"` is a prefix of `p`). -/
def underB (root p : String) : Bool :=
  root == p || prefixMatch (root ++ "/").toList p.toList

/-- Model of Python `s.startswith(pre)`. -/
def startsWithB (pre s : String) : Bool :=
  prefixMatch pre.toList s.toList

/-- Drop the first `n` characters of a string (all strings handled by the
pipeline are ASCII, so character count and Python's index count agree). -/
def strDropN (s : String) (n : Nat) : String :=
  (s.toList.drop n).asString

/-- Helper of `pySplit`, accumulating the current piece in reverse. -/
def pySplitAux (sep : Char) : List Char → List Char → List String
  | [], acc => [acc.reverse.asString]
  | c :: cs, acc =>
    if c == sep then acc.reverse.asString :: pySplitAux sep cs []
    else pySplitAux sep cs (c :: acc)

/-- Model of Python `s.split(sep)` for a one-character separator: splits
at every occurrence and keeps empty pieces. -/
def pySplit (sep : Char) (s : String) : List String :=
  pySplitAux sep s.toList []

/-- The whitespace characters Python's `str.strip` removes (the ones that
can occur in a loader configuration file). -/
def isSpaceC (c : Char) : Bool :=
  c == ' ' || c == '\t' || c == '\n' || c == '\r'

/-- Model of Python `s.strip()`. -/
def pyStrip (s : String) : String :=
  ((s.toList.dropWhile isSpaceC).reverse.dropWhile isSpaceC).reverse.asString

/-! ## Pattern rules

Every regular expression in `NVIDIA_DSO_PATTERNS`, `NVIDIA_CUDA_DSO_PATTERNS`,
`NVIDIA_GLX_DSO_PATTERNS` and `NVIDIA_EGL_DSO_PATTERNS` (nvidia.py) has the
shape `<literal with escaped dots>.*$`.  For a newline-free subject string,
Python's `re.search` of such a pattern succeeds exactly when the literal
occurs as a substring of the subject (`.` matches every character of the
remainder, including slashes, and `$` then matches at the end).  A pattern
is therefore embedded as its literal. -/

structure DsoPattern where
  lit : String
deriving DecidableEq

/-- Model of `re.search(p, s)` for the pattern shapes used by the repo. -/
def re_search (p : DsoPattern) (s : String) : Bool :=
  substrMatch p.lit.toList s.toList

/-- Model of the inner `is_dso_matching_pattern` loop of `resolve_libraries`
(main.py:241-245): true when any rule of the list matches. -/
def matchesAny (pats : List DsoPattern) (s : String) : Bool :=
  pats.any (fun p => re_search p s)

/-- `NVIDIA_DSO_PATTERNS` (nvidia.py:26-73), each regex replaced by its
literal as explained above. -/
def NVIDIA_DSO_PATTERNS : List DsoPattern :=
  [⟨"libGLESv1_CM_nvidia.so"⟩, ⟨"libGLESv2_nvidia.so"⟩,
   ⟨"libglxserver_nvidia.so"⟩, ⟨"libnvcuvid.so"⟩,
   ⟨"libnvidia-allocator.so"⟩, ⟨"libnvidia-cfg.so"⟩,
   ⟨"libnvidia-compiler.so"⟩, ⟨"libnvidia-eglcore.so"⟩,
   ⟨"libnvidia-encode.so"⟩, ⟨"libnvidia-fbc.so"⟩,
   ⟨"libnvidia-glcore.so"⟩, ⟨"libnvidia-glsi.so"⟩,
   ⟨"libnvidia-glvkspirv.so"⟩, ⟨"libnvidia-gpucomp.so"⟩,
   ⟨"libnvidia-ml.so"⟩, ⟨"libnvidia-ngx.so"⟩,
   ⟨"libnvidia-nvvm.so"⟩, ⟨"libnvidia-opencl.so"⟩,
   ⟨"libnvidia-opticalflow.so"⟩, ⟨"libnvidia-ptxjitcompiler.so"⟩,
   ⟨"libnvidia-rtcore.so"⟩, ⟨"libnvidia-tls.so"⟩,
   ⟨"libnvidia-vulkan-producer.so"⟩, ⟨"libnvidia-wayland-client.so"⟩,
   ⟨"libnvoptix.so"⟩, ⟨"libnvtegrahv.so"⟩,
   ⟨"libdrm.so"⟩, ⟨"libffi.so"⟩, ⟨"libgbm.so"⟩, ⟨"libexpat.so"⟩,
   ⟨"libxcb-glx.so"⟩, ⟨"libX11-xcb.so"⟩, ⟨"libX11.so"⟩, ⟨"libXext.so"⟩,
   ⟨"libwayland-server.so"⟩, ⟨"libwayland-client.so"⟩]

/-- `NVIDIA_CUDA_DSO_PATTERNS` (nvidia.py:75). -/
def NVIDIA_CUDA_DSO_PATTERNS : List DsoPattern :=
  [⟨"libcudadebugger.so"⟩, ⟨"libcuda.so"⟩]

/-- `NVIDIA_GLX_DSO_PATTERNS` (nvidia.py:77). -/
def NVIDIA_GLX_DSO_PATTERNS : List DsoPattern := [⟨"libGLX_nvidia.so"⟩]

/-- `NVIDIA_EGL_DSO_PATTERNS` (nvidia.py:79-83). -/
def NVIDIA_EGL_DSO_PATTERNS : List DsoPattern :=
  [⟨"libEGL_nvidia.so"⟩, ⟨"libnvidia-egl-wayland.so"⟩,
   ⟨"libnvidia-egl-gbm.so"⟩]

/-! ## Data model (main.py) -/

/-- `CACHE_VERSION` (main.py:29). -/
def CACHE_VERSION : Int := 3

/-- `PATCHELF_PATH` (main.py:36, the `IN_NIX_STORE = False` branch). -/
def PATCHELF_PATH : String := "patchelf"

/-- `ResolvedLib` (main.py:39-92): one host DSO with identity metadata. -/
structure ResolvedLib where
  name : String
  dirpath : String
  fullpath : String
  last_modification : Int
  size : Int
deriving DecidableEq

/-- `ResolvedLib.__eq__` (main.py:79-86): conjunction of the five fields,
in source order. -/
def rlEq (a b : ResolvedLib) : Bool :=
  a.name == b.name && a.fullpath == b.fullpath && a.dirpath == b.dirpath
    && a.last_modification == b.last_modification && a.size == b.size

/-- `LibraryPath` (main.py:95-153): the classified DSOs of one directory. -/
structure LibraryPath where
  glx : List ResolvedLib
  cuda : List ResolvedLib
  generic : List ResolvedLib
  egl : List ResolvedLib
  path : String
deriving DecidableEq

/-- Python `set(xs) == set(ys)` where the elements compare with `eq`:
mutual membership in both directions. -/
def pySetEq {α : Type} (eq : α → α → Bool) (xs ys : List α) : Bool :=
  xs.all (fun x => ys.any (fun y => eq x y))
    && ys.all (fun y => xs.any (fun x => eq x y))

/-- `LibraryPath.__eq__` (main.py:113-120): bucket-wise set comparison plus
the path, in source order. -/
def lpEq (a b : LibraryPath) : Bool :=
  pySetEq rlEq a.glx b.glx && pySetEq rlEq a.cuda b.cuda
    && pySetEq rlEq a.generic b.generic && pySetEq rlEq a.egl b.egl
    && a.path == b.path

/-- `CacheDirContent` (main.py:156-178): all library paths plus the cache
schema version. -/
structure CacheDirContent where
  paths : List LibraryPath
  version : Int
deriving DecidableEq

/-- `CacheDirContent.__eq__` (main.py:170-171): version equality and
set comparison of the paths. -/
def cdcEq (a b : CacheDirContent) : Bool :=
  a.version == b.version && pySetEq lpEq a.paths b.paths

/-! ## JSON document trees -/

/-- JSON documents, as far as the cache serialization needs them. -/
inductive Json where
  | str (s : String)
  | num (n : Int)
  | arr (elems : List Json)
  | obj (fields : List (String × Json))

/-- Key lookup in a JSON object: `d[k]`, failing like Python's `KeyError`
(the bare `except` of `is_dso_cache_up_to_date` catches it). -/
def jGet (j : Json) (k : String) : Except Unit Json :=
  match j with
  | .obj kvs =>
    match kvs.find? (fun kv => kv.fst == k) with
    | some kv => .ok kv.snd
    | none => .error ()
  | _ => .error ()

/-- Expect a JSON string. -/
def jStr : Json → Except Unit String
  | .str s => .ok s
  | _ => .error ()

/-- Expect a JSON number. -/
def jNum : Json → Except Unit Int
  | .num n => .ok n
  | _ => .error ()

/-- Expect a JSON array. -/
def jArr : Json → Except Unit (List Json)
  | .arr xs => .ok xs
  | _ => .error ()

/-- `ResolvedLib.to_dict` (main.py:65-72). -/
def ResolvedLib.to_dict (r : ResolvedLib) : Json :=
  .obj [("name", .str r.name), ("dirpath", .str r.dirpath),
        ("fullpath", .str r.fullpath),
        ("last_modification", .num r.last_modification),
        ("size", .num r.size)]

/-- `ResolvedLib.from_dict` (main.py:88-92). -/
def ResolvedLib.from_dict (j : Json) : Except Unit ResolvedLib := do
  let name ← jStr (← jGet j "name")
  let dirpath ← jStr (← jGet j "dirpath")
  let fullpath ← jStr (← jGet j "fullpath")
  let lm ← jNum (← jGet j "last_modification")
  let sz ← jNum (← jGet j "size")
  .ok ⟨name, dirpath, fullpath, lm, sz⟩

/-- Parse a JSON array of `ResolvedLib` dicts, the list comprehension of
`LibraryPath.from_dict` (main.py:148-151). -/
def parseRLs : List Json → Except Unit (List ResolvedLib)
  | [] => .ok []
  | j :: js => do
    let r ← ResolvedLib.from_dict j
    let rs ← parseRLs js
    .ok (r :: rs)

/-- `LibraryPath.to_dict` (main.py:136-143). -/
def LibraryPath.to_dict (lp : LibraryPath) : Json :=
  .obj [("glx", .arr (lp.glx.map ResolvedLib.to_dict)),
        ("cuda", .arr (lp.cuda.map ResolvedLib.to_dict)),
        ("generic", .arr (lp.generic.map ResolvedLib.to_dict)),
        ("egl", .arr (lp.egl.map ResolvedLib.to_dict)),
        ("path", .str lp.path)]

/-- `LibraryPath.from_dict` (main.py:145-153). -/
def LibraryPath.from_dict (j : Json) : Except Unit LibraryPath := do
  let glx ← parseRLs (← jArr (← jGet j "glx"))
  let cuda ← parseRLs (← jArr (← jGet j "cuda"))
  let generic ← parseRLs (← jArr (← jGet j "generic"))
  let egl ← parseRLs (← jArr (← jGet j "egl"))
  let path ← jStr (← jGet j "path")
  .ok ⟨glx, cuda, generic, egl, path⟩

/-- Parse a JSON array of `LibraryPath` dicts, the list comprehension of
`CacheDirContent.from_json` (main.py:177). -/
def parseLPs : List Json → Except Unit (List LibraryPath)
  | [] => .ok []
  | j :: js => do
    let p ← LibraryPath.from_dict j
    let ps ← parseLPs js
    .ok (p :: ps)

/-- `CacheDirContent.to_json` (main.py:166-168) at document-tree level
(the `json.dumps(..., sort_keys=True)` encoding of this tree is the file's
byte content). -/
def CacheDirContent.to_json (c : CacheDirContent) : Json :=
  .obj [("paths", .arr (c.paths.map LibraryPath.to_dict)),
        ("version", .num c.version)]

/-- `CacheDirContent.from_json` (main.py:173-178) at document-tree level. -/
def CacheDirContent.from_json (j : Json) : Except Unit CacheDirContent := do
  let version ← jNum (← jGet j "version")
  let paths ← parseLPs (← jArr (← jGet j "paths"))
  .ok ⟨paths, version⟩

/-! ## Filesystem model

Stateful `os` / `shutil` calls act on an explicit filesystem value: the set
of existing directories, the set of directories that exist but cannot be
listed, and the file entries.  File contents are either raw text or a JSON
document tree (standing for its `json.dumps(..., sort_keys=True)` bytes,
a deterministic injective encoding). -/

/-- Content of one file. -/
inductive FContent where
  | raw (s : String)
  | doc (j : Json)

/-- The pipeline never reads a JSON cache file back as plain text, so only
the `raw` case of this accessor is ever exercised. -/
def FContent.text : FContent → String
  | .raw s => s
  | .doc _ => ""

/-- Byte size of a content value; only the sizes recorded for pre-existing
host files are ever observed by the pipeline, so the serialized size of a
JSON document is not modelled. -/
def FContent.byteSize : FContent → Int
  | .raw s => s.length
  | .doc _ => 0

/-- One file entry: containing directory, slash-free name, content and the
`os.stat` metadata the code reads (mtime, size). -/
structure FileEnt where
  dir : String
  name : String
  content : FContent
  mtime : Int
  size : Int

/-- A filesystem state. -/
structure Fs where
  dirs : List String
  unreadable : List String
  files : List FileEnt

/-- Errors surfaced by the embedded `os` calls. -/
inductive OsErr where
  | noent
  | eacces
deriving DecidableEq

/-- Exceptions of the embedded pipeline: OS errors, the `BaseException`
raised by `patch_dsos` (main.py:288-291) carrying the argv and exit code,
and the failed `assert` of `nvidia_main` (nvidia.py:242). -/
inductive Err where
  | os (e : OsErr)
  | patchFailed (argv : List String) (code : Int)
  | assertEmpty
deriving DecidableEq

/-- Result of a stateful, fallible step: outcome plus final filesystem. -/
inductive Res (α : Type) where
  | ok (a : α) (fs : Fs)
  | fail (e : Err) (fs : Fs)

/-- True when a `Res` is a success. -/
def Res.isOk {α : Type} : Res α → Bool
  | .ok _ _ => true
  | .fail _ _ => false

/-- The full path string of a file entry, as the code computes it with
`os.path.join`. -/
def FileEnt.path (e : FileEnt) : String := pjoin e.dir e.name

/-- `os.path.isdir p`. -/
def isdir (fs : Fs) (p : String) : Bool := fs.dirs.any (fun d => d == p)

/-- The first file entry whose full path is `p`, if any; carrier of
`os.path.isfile`, `os.stat` and `open(p).read()`. -/
def fileAt (fs : Fs) (p : String) : Option FileEnt :=
  fs.files.find? (fun e => e.path == p)

/-- `os.path.isfile p`. -/
def isfile (fs : Fs) (p : String) : Bool := (fileAt fs p).isSome

/-- `os.path.exists p`. -/
def existsP (fs : Fs) (p : String) : Bool := isfile fs p || isdir fs p

/-- `open(p).read()` as an optional content lookup. -/
def readFileOpt (fs : Fs) (p : String) : Option FContent :=
  (fileAt fs p).map (fun e => e.content)

/-- `os.listdir p`: the names of the entries of directory `p`, failing for
a missing or unreadable directory exactly as Python raises
`FileNotFoundError` / `PermissionError`. -/
def listdir (fs : Fs) (p : String) : Except OsErr (List String) :=
  if isdir fs p then
    if fs.unreadable.any (fun d => d == p) then .error .eacces
    else .ok ((fs.files.filter (fun e => e.dir == p)).map (fun e => e.name))
  else .error .noent

/-- `open(pjoin d n, "w").write(c)` at time `now`: replaces any existing
entry at that directory and name. -/
def Fs.writeFile (fs : Fs) (d n : String) (c : FContent) (now : Int) : Fs :=
  { fs with
    files := (fs.files.filter (fun e => !(e.dir == d && e.name == n)))
      ++ [⟨d, n, c, now, c.byteSize⟩] }

/-- `os.makedirs(d, exist_ok=True)`.  Creation of intermediate parent
directories is not modelled: no behaviour observed by the pipeline depends
on the intermediate entries. -/
def Fs.makedirs (fs : Fs) (d : String) : Fs :=
  if isdir fs d then fs else { fs with dirs := fs.dirs ++ [d] }

/-- `shutil.rmtree root`: drops every directory at or below `root` and
every file whose containing directory is at or below `root`. -/
def Fs.rmtree (fs : Fs) (root : String) : Fs :=
  { dirs := fs.dirs.filter (fun d => !underB root d)
    unreadable := fs.unreadable.filter (fun d => !underB root d)
    files := fs.files.filter (fun e => !underB root e.dir) }

/-- Re-root every path at or below `src` to the corresponding path below
`dst`; the effect of `shutil.move(src, parent)` where
`dst = parent/basename(src)`. -/
def Fs.rebase (fs : Fs) (src dst : String) : Fs :=
  let re := fun (p : String) =>
    if underB src p then dst ++ strDropN p src.length else p
  { dirs := fs.dirs.map re
    unreadable := fs.unreadable.map re
    files := fs.files.map (fun e => { e with dir := re e.dir }) }

/-- `shutil.copyfile(src, pjoin d n)` followed by the `os.chmod` of
`copy_and_patch_libs` (main.py:276-278); the permission-bit change is not
observable in this model.  Fails like Python when the source is missing. -/
def Fs.copyfile (fs : Fs) (src d n : String) (now : Int) : Res Unit :=
  match fileAt fs src with
  | some e => .ok () (fs.writeFile d n e.content now)
  | none => .fail (.os .noent) fs

/-! ## Resolver and Cache Store (main.py) -/

/-- `resolve_libraries(path, files_patterns)` (main.py:234-253): list the
directory and keep the regular files whose absolute path matches some
pattern, recording name, directory, full path and the `os.stat` metadata.
Note the match subject is the absolute joined path, not the bare name. -/
def resolve_libraries (fs : Fs) (path : String) (files_patterns : List DsoPattern) :
    Except OsErr (List ResolvedLib) :=
  match listdir fs path with
  | .error e => .error e
  | .ok names =>
    .ok (names.filterMap (fun fname =>
      let abs_file_path := pjoin path fname
      match fileAt fs abs_file_path with
      | some ent =>
        if matchesAny files_patterns abs_file_path then
          some ⟨fname, path, abs_file_path, ent.mtime, ent.size⟩
        else none
      | none => none))

/-- `json.loads` on a stored file content: a JSON document parses to its
tree; raw text models bytes that are not a JSON document and fails. -/
def loads : FContent → Except Unit Json
  | .doc j => .ok j
  | .raw _ => .error ()

/-- The `CacheDirContent.from_json(f.read())` step of
`is_dso_cache_up_to_date`: decode the bytes, then rebuild the snapshot. -/
def parseCDC (c : FContent) : Except Unit CacheDirContent := do
  CacheDirContent.from_json (← loads c)

/-- `is_dso_cache_up_to_date(dsos, cache_file_path)` (main.py:294-309):
false when the stored file is absent or fails to parse, otherwise the
snapshot comparison `dsos == cached_dsos`. -/
def is_dso_cache_up_to_date (fs : Fs) (dsos : CacheDirContent)
    (cache_file_path : String) : Bool :=
  match readFileOpt fs cache_file_path with
  | some content =>
    match parseCDC content with
    | .ok cached_dsos => cdcEq dsos cached_dsos
    | .error _ => false
  | none => false

/-! ## Patch Engine (main.py) -/

/-- External oracles and per-run inputs: the patchelf subprocess as a map
from argv to exit code, the sha256 hex digest as a string function, the
fresh directory created by `tempfile.TemporaryDirectory()`, the
environment variables read by `get_ld_paths` / `nvidia_main`, and the
current time stamped onto written files. -/
structure Ctx where
  patchExit : List String → Int
  hashHex : String → String
  tmpRoot : String
  ldLibraryPath : Option String
  prfx : Option String
  now : Int

/-- `patch_dsos(dsoPaths, rpath)` (main.py:283-291): one `subprocess.run`
of `patchelf --set-rpath <rpath> <dsoPaths...>` for the whole batch;
non-zero exit raises. -/
def patch_dsos (ctx : Ctx) (dsoPaths : List String) (rpath : String) :
    Except Err Unit :=
  let argv := [PATCHELF_PATH, "--set-rpath", rpath] ++ dsoPaths
  let code := ctx.patchExit argv
  if code != 0 then .error (.patchFailed argv code) else .ok ()

/-- The copy loop of `copy_and_patch_libs` (main.py:272-279), accumulating
the destination paths in order. -/
def copyLoop (ctx : Ctx) (fs : Fs) (dest_dir : String) :
    List ResolvedLib → List String → Res (List String)
  | [], acc => .ok acc fs
  | dso :: rest, acc =>
    let basename := basenameOf dso.fullpath
    match fs.copyfile dso.fullpath dest_dir basename ctx.now with
    | .ok _ fs' => copyLoop ctx fs' dest_dir rest (acc ++ [pjoin dest_dir basename])
    | .fail e fs' => .fail e fs'

/-- `copy_and_patch_libs(dsos, dest_dir, rpath)` (main.py:256-280): copy
every DSO into `dest_dir`, then patch the batch of copies. -/
def copy_and_patch_libs (ctx : Ctx) (fs : Fs) (dsos : List ResolvedLib)
    (dest_dir : String) (rpath : Option String) : Res Unit :=
  let rp := match rpath with
    | some r => r
    | none => dest_dir
  match copyLoop ctx fs dest_dir dsos [] with
  | .ok new_paths fs' =>
    match patch_dsos ctx new_paths rp with
    | .ok _ => .ok () fs'
    | .error e => .fail e fs'
  | .fail e fs' => .fail e fs'

/-! ## Search-path derivation (main.py `get_ld_paths`) -/

/-- Shell glob matching for one path pattern: `*` and `?` match within a
single path component (never a slash), other characters literally. -/
def globMatch (p s : List Char) : Bool :=
  match p, s with
  | [], [] => true
  | [], _ :: _ => false
  | '*' :: ps, [] => globMatch ps []
  | '*' :: ps, c :: cs =>
    globMatch ps (c :: cs) || (c != '/' && globMatch ('*' :: ps) cs)
  | '?' :: _, [] => false
  | '?' :: ps, c :: cs => c != '/' && globMatch ps cs
  | _ :: _, [] => false
  | p1 :: ps, c :: cs => p1 == c && globMatch ps cs
termination_by p.length + s.length

/-- `glob.glob(pat)`: the existing paths (directories and files) matching
the pattern. -/
def globPaths (fs : Fs) (pat : String) : List String :=
  (fs.dirs ++ fs.files.map FileEnt.path).filter
    (fun p => globMatch pat.toList p.toList)

/-- `parse_ld_conf_file(fn)` (main.py:187-203), with a fuel argument
bounding the `include` recursion depth: the Python original recurses
without bound (and would not terminate on cyclic includes); every
terminating Python run is reproduced with enough fuel. -/
def parse_ld_conf_file (fs : Fs) : Nat → String → List String
  | 0, _ => []
  | fuel + 1, fn =>
    match readFileOpt fs fn with
    | none => []
    | some c =>
      (pySplit '\n' c.text).foldl (fun paths l0 =>
        let l := pyStrip l0
        if l.isEmpty then paths
        else if startsWithB "#" l then paths
        else if startsWithB "include " l then
          let dirglob0 := strDropN l 8
          let dirglob := if startsWithB "/" dirglob0 then dirglob0
            else dirnameOf fn ++ "/" ++ dirglob0
          (globPaths fs dirglob).foldl
            (fun acc sub_fn => acc ++ parse_ld_conf_file fs fuel sub_fn) paths
        else paths ++ [l]) []

/-- `get_ld_paths()` (main.py:181-231): merge the `LD_LIBRARY_PATH`
entries, the parsed `/etc/ld.so.conf`, the `PREFIX` configuration and its
implied directories, and the standard system directories, keeping only
those that exist as directories.  Python truthiness: an empty environment
value is skipped like an unset one. -/
def get_ld_paths (ctx : Ctx) (fs : Fs) : List String :=
  let fuel := fs.files.length + 1
  let paths :=
    (match ctx.ldLibraryPath with
     | some s => if s.isEmpty then [] else pySplit ':' s
     | none => [])
    ++ (if existsP fs "/etc/ld.so.conf" then
          parse_ld_conf_file fs fuel "/etc/ld.so.conf"
        else [])
    ++ (match ctx.prfx with
        | some px =>
          if px.isEmpty then []
          else
            (if existsP fs (px ++ "/etc/ld.so.conf") then
               parse_ld_conf_file fs fuel (px ++ "/etc/ld.so.conf")
             else [])
            ++ [px ++ "/lib", px ++ "/usr/lib", px ++ "/lib64",
                px ++ "/usr/lib64"]
        | none => [])
    ++ ["/lib", "/usr/lib", "/lib64", "/usr/lib64"]
  paths.filter (fun p => isdir fs p)

/-! ## Scanner and Cache Builder (nvidia.py) -/

/-- `scan_dsos_from_dir(path)` (nvidia.py:115-127): the generic bucket
gates the directory; the three refinement buckets are resolved only when
it is non-empty. -/
def scan_dsos_from_dir (fs : Fs) (path : String) :
    Except OsErr (Option LibraryPath) :=
  match resolve_libraries fs path NVIDIA_DSO_PATTERNS with
  | .error e => .error e
  | .ok generic =>
    if generic.length > 0 then
      match resolve_libraries fs path NVIDIA_CUDA_DSO_PATTERNS with
      | .error e => .error e
      | .ok cuda =>
        match resolve_libraries fs path NVIDIA_GLX_DSO_PATTERNS with
        | .error e => .error e
        | .ok glx =>
          match resolve_libraries fs path NVIDIA_EGL_DSO_PATTERNS with
          | .error e => .error e
          | .ok egl => .ok (some ⟨glx, cuda, generic, egl, path⟩)
    else .ok none

/-- The scan loop of `nvidia_main` (nvidia.py:205-208): scan every
directory in order, keeping the non-`None` results. -/
def scanAll (fs : Fs) : List String → Except OsErr (List LibraryPath)
  | [] => .ok []
  | p :: ps =>
    match scan_dsos_from_dir fs p with
    | .error e => .error e
    | .ok none => scanAll fs ps
    | .ok (some lp) =>
      match scanAll fs ps with
      | .error e => .error e
      | .ok lps => .ok (lp :: lps)

/-- One iteration of the copy-and-patch loop of `cache_library_path`
(main.py:335-345): create the category directory, and copy and patch the
bucket when it is non-empty. -/
def bucketStep (ctx : Ctx) (fs : Fs) (dsos : List ResolvedLib)
    (d rpath : String) : Res Unit :=
  let fs1 := fs.makedirs d
  if dsos.length > 0 then copy_and_patch_libs ctx fs1 dsos d (some rpath)
  else .ok () fs1

/-- `cache_library_path(library_path, temp_cache_dir_root,
final_cache_dir_root)` (main.py:312-346): build the hashed cache
subdirectory for one host library path inside the temporary root, with
runpaths pointing at the final root. -/
def cache_library_path (ctx : Ctx) (fs : Fs) (library_path : LibraryPath)
    (temp_cache_dir_root final_cache_dir_root : String) : Res String :=
  let path_hash := ctx.hashHex library_path.path
  let cache_path_root := pjoin temp_cache_dir_root path_hash
  let lib_dir := pjoin cache_path_root "lib"
  let rpath_lib_dir := pjoin (pjoin final_cache_dir_root path_hash) "lib"
  let cuda_dir := pjoin cache_path_root "cuda"
  let egl_dir := pjoin cache_path_root "egl"
  let glx_dir := pjoin cache_path_root "glx"
  match bucketStep ctx fs library_path.generic lib_dir rpath_lib_dir with
  | .fail e fs' => .fail e fs'
  | .ok _ fs1 =>
    match bucketStep ctx fs1 library_path.cuda cuda_dir rpath_lib_dir with
    | .fail e fs' => .fail e fs'
    | .ok _ fs2 =>
      match bucketStep ctx fs2 library_path.egl egl_dir rpath_lib_dir with
      | .fail e fs' => .fail e fs'
      | .ok _ fs3 =>
        match bucketStep ctx fs3 library_path.glx glx_dir rpath_lib_dir with
        | .fail e fs' => .fail e fs'
        | .ok _ fs4 => .ok path_hash fs4

/-- `generate_cache_ld_library_path(cache_paths)` (main.py:349-363). -/
def generate_cache_ld_library_path (cache_paths : List String) : String :=
  String.intercalate ":"
    (cache_paths.foldl
      (fun acc path => acc ++ [path ++ "/glx", path ++ "/cuda", path ++ "/egl"])
      [])

/-- The JSON document written for one EGL vendor config
(nvidia.py:95-98). -/
def generate_egl_conf_json (dso : String) : Json :=
  .obj [("file_format_version", .str "1.0.0"),
        ("ICD", .obj [("library_path", .str dso)])]

/-- `generate_nvidia_egl_config_files(egl_conf_dir)` (nvidia.py:86-112). -/
def generate_nvidia_egl_config_files (ctx : Ctx) (fs : Fs)
    (egl_conf_dir : String) : Fs :=
  [("10_nvidia.json", "libEGL_nvidia.so.0"),
   ("10_nvidia_wayland.json", "libnvidia-egl-wayland.so.1"),
   ("15_nvidia_gbm.json", "libnvidia-egl-gbm.so.1")].foldl
    (fun acc kv =>
      (acc.makedirs egl_conf_dir).writeFile egl_conf_dir kv.1
        (.doc (generate_egl_conf_json kv.2)) ctx.now)
    fs

/-- `generate_cache_metadata(cache_dir, cache_content, cache_paths)`
(nvidia.py:130-153, the definition in scope inside `nvidia_main`): write
`cache.json` and `ld_library_path`, generate the EGL configs, and return
the `LD_LIBRARY_PATH` string. -/
def generate_cache_metadata (ctx : Ctx) (fs : Fs) (cache_dir : String)
    (cache_content : CacheDirContent) (cache_paths : List String) :
    String × Fs :=
  let fs1 := fs.writeFile cache_dir "cache.json"
    (.doc cache_content.to_json) ctx.now
  let nix_gl_ld_library_path := generate_cache_ld_library_path cache_paths
  let fs2 := fs1.writeFile cache_dir "ld_library_path"
    (.raw nix_gl_ld_library_path) ctx.now
  let fs3 := generate_nvidia_egl_config_files ctx fs2
    (pjoin cache_dir "egl-confs")
  (nix_gl_ld_library_path, fs3)

/-- The per-library-path loop of the rebuild (nvidia.py:220-222). -/
def cachePathsLoop (ctx : Ctx) (fs : Fs) (tmp final : String) :
    List LibraryPath → List String → Res (List String)
  | [], acc => .ok acc fs
  | p :: ps, acc =>
    match cache_library_path ctx fs p tmp final with
    | .fail e fs' => .fail e fs'
    | .ok h fs' => cachePathsLoop ctx fs' tmp final ps (acc ++ [h])

/-- The rebuild branch of `nvidia_main` (nvidia.py:212-235), including the
`tempfile.TemporaryDirectory()` semantics: the temporary root is created
on entry and removed on every exit, and the populated cache is promoted by
removing any previous cache root and moving the temporary cache next to
it. -/
def rebuildBranch (ctx : Ctx) (fs : Fs) (cache_dir : String)
    (cache_content : CacheDirContent) : Res String :=
  let fs0 := fs.makedirs ctx.tmpRoot
  let tmp_cache_dir := pjoin ctx.tmpRoot "nix-gl-host"
  let fs1 := fs0.makedirs tmp_cache_dir
  match cachePathsLoop ctx fs1 tmp_cache_dir cache_dir cache_content.paths [] with
  | .fail e fs' => .fail e (fs'.rmtree ctx.tmpRoot)
  | .ok cache_paths fs2 =>
    let cache_absolute_paths := cache_paths.map (fun p => pjoin cache_dir p)
    let md := generate_cache_metadata ctx fs2 tmp_cache_dir cache_content
      cache_absolute_paths
    let fs3 := md.2
    let fs4 := if existsP fs3 cache_dir then fs3.rmtree cache_dir else fs3
    let fs5 := fs4.rebase tmp_cache_dir
      (pjoin (dirnameOf cache_dir) (basenameOf tmp_cache_dir))
    let fs6 := fs5.rmtree ctx.tmpRoot
    .ok md.1 fs6

/-- The reuse branch of `nvidia_main` (nvidia.py:237-239): read the cached
`ld_library_path` file. -/
def reuseBranch (fs : Fs) (cached_ld_library_path : String) : Res String :=
  match readFileOpt fs cached_ld_library_path with
  | some c => .ok c.text fs
  | none => .fail (.os .noent) fs

/-- The environment map returned by `nvidia_main` (nvidia.py:244-258). -/
structure NixHostEnv where
  glxVendorLibraryName : String
  eglVendorLibraryDirs : String
  ldLibraryPath : String
deriving DecidableEq

/-- The tail of `nvidia_main` after the lock-protected section
(nvidia.py:242-259): the `assert` on the obtained `LD_LIBRARY_PATH`
string, and the construction of the returned environment map. -/
def nvidiaTail (ctx : Ctx) (cache_dir : String) (branch : Res String) :
    Res NixHostEnv :=
  match branch with
  | .fail e fs' => .fail e fs'
  | .ok s fs' =>
    if s.isEmpty then .fail .assertEmpty fs'
    else
      .ok { glxVendorLibraryName := "nvidia"
            eglVendorLibraryDirs := pjoin cache_dir "egl-confs"
            ldLibraryPath :=
              match ctx.ldLibraryPath with
              | none => s
              | some inherited => s ++ ":" ++ inherited } fs'

/-- `nvidia_main(cache_dir, dso_vendor_paths, print_ld_library_path)`
(nvidia.py:156-259).  The advisory file lock serializes concurrent
processes and is a no-op in this single-process model; printing only
writes to stdout and is not modelled.  Note that the body scans the result
of `get_ld_paths()` (nvidia.py:189,205); the `dso_vendor_paths` parameter
is never read. -/
def nvidia_main (ctx : Ctx) (fs : Fs) (cache_dir : String)
    (dso_vendor_paths : List String) (print_ld_library_path : Bool) :
    Res NixHostEnv :=
  let cache_file_path := pjoin cache_dir "cache.json"
  let cached_ld_library_path := pjoin cache_dir "ld_library_path"
  let paths := get_ld_paths ctx fs
  match scanAll fs paths with
  | .error e => .fail (.os e) fs
  | .ok lps =>
    let cache_content : CacheDirContent := ⟨lps, CACHE_VERSION⟩
    nvidiaTail ctx cache_dir
      (if !(is_dso_cache_up_to_date fs cache_content cache_file_path)
          || !(isfile fs cached_ld_library_path) then
        rebuildBranch ctx fs cache_dir cache_content
      else reuseBranch fs cached_ld_library_path)

/-! ## Serialization round-trip and equality lemmas -/

theorem rl_from_to (r : ResolvedLib) : ResolvedLib.from_dict r.to_dict = .ok r := rfl

theorem parseRLs_map (xs : List ResolvedLib) :
    parseRLs (xs.map ResolvedLib.to_dict) = .ok xs := by
  induction xs with
  | nil => rfl
  | cons x xs ih => simp [parseRLs, rl_from_to, ih, Bind.bind, Except.bind]

theorem lp_from_to (lp : LibraryPath) :
    LibraryPath.from_dict lp.to_dict = .ok lp := by
  simp [LibraryPath.from_dict, LibraryPath.to_dict, jGet, jArr, jStr,
    parseRLs_map, Bind.bind, Except.bind]

theorem parseLPs_map (xs : List LibraryPath) :
    parseLPs (xs.map LibraryPath.to_dict) = .ok xs := by
  induction xs with
  | nil => rfl
  | cons x xs ih => simp [parseLPs, lp_from_to, ih, Bind.bind, Except.bind]

theorem cdc_from_to (c : CacheDirContent) :
    CacheDirContent.from_json c.to_json = .ok c := by
  simp [CacheDirContent.from_json, CacheDirContent.to_json, jGet, jArr, jNum,
    parseLPs_map, Bind.bind, Except.bind]

theorem rlEq_iff (a b : ResolvedLib) :
    rlEq a b = true ↔
      (a.name = b.name ∧ a.dirpath = b.dirpath ∧ a.fullpath = b.fullpath ∧
       a.last_modification = b.last_modification ∧ a.size = b.size) := by
  cases a; cases b
  simp only [rlEq, Bool.and_eq_true, beq_iff_eq]
  tauto

theorem rlEq_refl (a : ResolvedLib) : rlEq a a = true := by
  simp [rlEq_iff]

theorem rlEq_eq {a b : ResolvedLib} (h : rlEq a b = true) : a = b := by
  cases a; cases b
  obtain ⟨h1, h2, h3, h4, h5⟩ := (rlEq_iff _ _).mp h
  simp_all

theorem pySetEq_refl {α : Type} (eq : α → α → Bool)
    (hrefl : ∀ a, eq a a = true) (xs : List α) : pySetEq eq xs xs = true := by
  simp only [pySetEq, Bool.and_eq_true, List.all_eq_true]
  constructor
  · intro x hx
    exact List.any_eq_true.mpr ⟨x, hx, hrefl x⟩
  · intro x hx
    exact List.any_eq_true.mpr ⟨x, hx, hrefl x⟩

theorem lpEq_refl (lp : LibraryPath) : lpEq lp lp = true := by
  simp [lpEq, pySetEq_refl rlEq rlEq_refl]

theorem cdcEq_refl (c : CacheDirContent) : cdcEq c c = true := by
  simp [cdcEq, pySetEq_refl lpEq lpEq_refl]

theorem pySetEq_false_of_right {α : Type} (eq : α → α → Bool) (xs ys : List α)
    (y : α) (hy : y ∈ ys) (h : ∀ x ∈ xs, eq x y = false) :
    pySetEq eq xs ys = false := by
  apply Bool.eq_false_iff.mpr
  intro htrue
  simp only [pySetEq, Bool.and_eq_true, List.all_eq_true] at htrue
  obtain ⟨x, hx, hxy⟩ := List.any_eq_true.mp (htrue.2 y hy)
  rw [h x hx] at hxy
  exact Bool.false_ne_true hxy

theorem lpEq_false_of_generic {a b : LibraryPath}
    (h : pySetEq rlEq a.generic b.generic = false) : lpEq a b = false := by
  simp [lpEq, h]

theorem cdcEq_false_of_unmatched {a b : CacheDirContent} (lp' : LibraryPath)
    (hy : lp' ∈ b.paths) (h : ∀ x ∈ a.paths, lpEq x lp' = false) :
    cdcEq a b = false := by
  simp [cdcEq, pySetEq_false_of_right lpEq a.paths b.paths lp' hy h]

/-- C4: `ResolvedLib` equality is the conjunction of all five fields, and a
stored snapshot that differs from the fresh one only in one record's size
or modification time at an unchanged path makes `is_dso_cache_up_to_date`
return false. -/
theorem c4_staleness_sensitivity :
    (∀ a b : ResolvedLib, rlEq a b = true ↔
      (a.name = b.name ∧ a.dirpath = b.dirpath ∧ a.fullpath = b.fullpath ∧
       a.last_modification = b.last_modification ∧ a.size = b.size))
    ∧ (∀ (fs : Fs) (cache_file_path : String) (P Q : List LibraryPath)
        (glx cuda egl G H : List ResolvedLib) (path : String) (v : Int)
        (r r' : ResolvedLib),
        r'.name = r.name → r'.dirpath = r.dirpath → r'.fullpath = r.fullpath →
        (r'.size ≠ r.size ∨ r'.last_modification ≠ r.last_modification) →
        (∀ flp ∈ P ++ (⟨glx, cuda, G ++ r :: H, egl, path⟩ : LibraryPath) :: Q,
          r' ∉ flp.generic) →
        readFileOpt fs cache_file_path =
          some (.doc (CacheDirContent.to_json
            ⟨P ++ (⟨glx, cuda, G ++ r' :: H, egl, path⟩ : LibraryPath) :: Q, v⟩)) →
        is_dso_cache_up_to_date fs
          ⟨P ++ (⟨glx, cuda, G ++ r :: H, egl, path⟩ : LibraryPath) :: Q, v⟩
          cache_file_path = false) := by
  constructor
  · intro a b
    cases a; cases b
    simp only [rlEq, Bool.and_eq_true, beq_iff_eq]
    tauto
  · intro fs cache_file_path P Q glx cuda egl G H path v r r'
      hname hdir hfull hdiff hfresh hread
    simp only [is_dso_cache_up_to_date, hread, parseCDC, loads, Bind.bind,
      Except.bind, cdc_from_to]
    apply cdcEq_false_of_unmatched
      (⟨glx, cuda, G ++ r' :: H, egl, path⟩ : LibraryPath)
    · exact List.mem_append_right _ (List.mem_cons_self _ _)
    · intro x hx
      apply lpEq_false_of_generic
      apply pySetEq_false_of_right rlEq x.generic (G ++ r' :: H) r'
        (List.mem_append_right _ (List.mem_cons_self _ _))
      intro g hg
      cases hgr : rlEq g r' with
      | false => rfl
      | true =>
        rw [rlEq_eq hgr] at hg
        exact absurd hg (hfresh x hx)

def fsC4 : Fs :=
  { dirs := ["/c", "/d"]
    unreadable := []
    files := [⟨"/c", "cache.json",
      .doc (CacheDirContent.to_json
        ⟨[⟨[], [], [⟨"libnvidia-glcore.so.1", "/d", "/d/libnvidia-glcore.so.1",
            1, 11⟩], [], "/d"⟩], 3⟩), 0, 0⟩] }

theorem c4_staleness_sensitivity_witness :
    is_dso_cache_up_to_date fsC4
      ⟨[⟨[], [], [⟨"libnvidia-glcore.so.1", "/d", "/d/libnvidia-glcore.so.1",
          1, 10⟩], [], "/d"⟩], 3⟩ "/c/cache.json" = false :=
  c4_staleness_sensitivity.2 fsC4 "/c/cache.json" [] [] [] [] [] [] [] "/d" 3
    ⟨"libnvidia-glcore.so.1", "/d", "/d/libnvidia-glcore.so.1", 1, 10⟩
    ⟨"libnvidia-glcore.so.1", "/d", "/d/libnvidia-glcore.so.1", 1, 11⟩
    rfl rfl rfl (Or.inl (by decide)) (by decide) rfl

/-- C5: the up-to-date check is false when the stored file is absent,
unparsable, or has a different schema version, and is true exactly when
the stored snapshot parses and equals the fresh one (version included). -/
theorem c5_up_to_date_gating :
    (∀ (fs : Fs) (dsos : CacheDirContent) (p : String),
       readFileOpt fs p = none → is_dso_cache_up_to_date fs dsos p = false)
    ∧ (∀ (fs : Fs) (dsos : CacheDirContent) (p : String) (c : FContent),
       readFileOpt fs p = some c → parseCDC c = .error () →
       is_dso_cache_up_to_date fs dsos p = false)
    ∧ (∀ (fs : Fs) (dsos : CacheDirContent) (p : String) (c : FContent)
        (stored : CacheDirContent),
       readFileOpt fs p = some c → parseCDC c = .ok stored →
       stored.version ≠ dsos.version →
       is_dso_cache_up_to_date fs dsos p = false)
    ∧ (∀ (fs : Fs) (dsos : CacheDirContent) (p : String),
       is_dso_cache_up_to_date fs dsos p = true ↔
       ∃ (c : FContent) (stored : CacheDirContent),
         readFileOpt fs p = some c ∧ parseCDC c = .ok stored ∧
         cdcEq dsos stored = true) := by
  refine ⟨?_, ?_, ?_, ?_⟩
  · intro fs dsos p h
    simp [is_dso_cache_up_to_date, h]
  · intro fs dsos p c hread hparse
    simp [is_dso_cache_up_to_date, hread, hparse]
  · intro fs dsos p c stored hread hparse hver
    have : (dsos.version == stored.version) = false :=
      beq_eq_false_iff_ne.mpr (Ne.symm hver)
    simp [is_dso_cache_up_to_date, hread, hparse, cdcEq, this]
  · intro fs dsos p
    simp only [is_dso_cache_up_to_date]
    cases hread : readFileOpt fs p with
    | none => simp
    | some c =>
      cases hparse : parseCDC c with
      | error e => simp [hparse]
      | ok stored =>
        simp only [hparse]
        constructor
        · intro h
          exact ⟨c, stored, rfl, hparse, h⟩
        · rintro ⟨c', stored', hc, hp, he⟩
          cases hc
          rw [hparse] at hp
          cases hp
          exact he

def fsC5 : Fs :=
  { dirs := ["/c"]
    unreadable := []
    files := [⟨"/c", "garbage.json", .raw "not json", 0, 9⟩,
              ⟨"/c", "old.json",
                .doc (CacheDirContent.to_json ⟨[], 2⟩), 0, 0⟩,
              ⟨"/c", "cache.json",
                .doc (CacheDirContent.to_json ⟨[], 3⟩), 0, 0⟩] }

theorem c5_up_to_date_gating_witness :
    is_dso_cache_up_to_date fsC5 ⟨[], 3⟩ "/c/absent.json" = false
    ∧ is_dso_cache_up_to_date fsC5 ⟨[], 3⟩ "/c/garbage.json" = false
    ∧ is_dso_cache_up_to_date fsC5 ⟨[], 3⟩ "/c/old.json" = false
    ∧ is_dso_cache_up_to_date fsC5 ⟨[], 3⟩ "/c/cache.json" = true :=
  ⟨c5_up_to_date_gating.1 fsC5 ⟨[], 3⟩ "/c/absent.json" rfl,
   c5_up_to_date_gating.2.1 fsC5 ⟨[], 3⟩ "/c/garbage.json" (.raw "not json")
     rfl rfl,
   c5_up_to_date_gating.2.2.1 fsC5 ⟨[], 3⟩ "/c/old.json"
     (.doc (CacheDirContent.to_json ⟨[], 2⟩)) ⟨[], 2⟩ rfl rfl (by decide),
   (c5_up_to_date_gating.2.2.2 fsC5 ⟨[], 3⟩ "/c/cache.json").mpr
     ⟨.doc (CacheDirContent.to_json ⟨[], 3⟩), ⟨[], 3⟩, rfl, rfl,
      cdcEq_refl ⟨[], 3⟩⟩⟩

/-! ## Classifier claims -/

def fsC2 : Fs :=
  { dirs := ["/tmp/libcuda.so.hack", "/tmp/plain"]
    unreadable := []
    files := [⟨"/tmp/libcuda.so.hack", "foo.txt", .raw "x", 1, 1⟩,
              ⟨"/tmp/plain", "foo.txt", .raw "x", 1, 1⟩] }

/-- C2 counterexample: the same filename `foo.txt` placed in two different
directories is classified differently, because the rule is matched against
the absolute path and the first directory's name contains the pattern
text. -/
theorem c2_basename_counterexample :
    resolve_libraries fsC2 "/tmp/libcuda.so.hack" [⟨"libcuda.so"⟩]
      = .ok [⟨"foo.txt", "/tmp/libcuda.so.hack",
              "/tmp/libcuda.so.hack/foo.txt", 1, 1⟩]
    ∧ resolve_libraries fsC2 "/tmp/plain" [⟨"libcuda.so"⟩] = .ok [] := by
  constructor <;> rfl

/-- C2 (amended): the classifier verdict is a function of the absolute
joined path, not of the basename alone: a listed name is resolved exactly
when it is a regular file and some rule matches its absolute path. -/
theorem c2_classifier_abs_path (fs : Fs) (path : String)
    (pats : List DsoPattern) (out : List ResolvedLib)
    (h : resolve_libraries fs path pats = .ok out) (fname : String) :
    (∃ r ∈ out, r.name = fname) ↔
      ((∃ names, listdir fs path = .ok names ∧ fname ∈ names) ∧
        isfile fs (pjoin path fname) = true ∧
        matchesAny pats (pjoin path fname) = true) := by
  rcases hls : listdir fs path with e | names
  · simp only [resolve_libraries, hls] at h
    exact Except.noConfusion h
  · simp only [resolve_libraries, hls, Except.ok.injEq] at h
    subst h
    constructor
    · rintro ⟨r, hr, hrn⟩
      obtain ⟨a, ha, hfa⟩ := List.mem_filterMap.mp hr
      rcases hfe : fileAt fs (pjoin path a) with _ | ent
      · rw [hfe] at hfa
        simp at hfa
      · rw [hfe] at hfa
        by_cases hm : matchesAny pats (pjoin path a) = true
        · simp only [hm, if_true] at hfa
          cases hfa
          cases hrn
          exact ⟨⟨names, rfl, ha⟩, by simp [isfile, hfe], hm⟩
        · simp only [Bool.not_eq_true] at hm
          simp [hm] at hfa
    · rintro ⟨⟨names', hls', hmem⟩, hfile, hmatch⟩
      injection hls' with hn
      subst hn
      rw [isfile] at hfile
      obtain ⟨ent, hent⟩ := Option.isSome_iff_exists.mp hfile
      refine ⟨⟨fname, path, pjoin path fname, ent.mtime, ent.size⟩, ?_, rfl⟩
      exact List.mem_filterMap.mpr ⟨fname, hmem, by simp [hent, hmatch]⟩

def fsC2b : Fs :=
  { dirs := ["/drv"]
    unreadable := []
    files := [⟨"/drv", "libcuda.so.1", .raw "b", 5, 7⟩] }

theorem c2_classifier_abs_path_witness :
    ∃ r ∈ [(⟨"libcuda.so.1", "/drv", "/drv/libcuda.so.1", 5, 7⟩ : ResolvedLib)],
      r.name = "libcuda.so.1" :=
  (c2_classifier_abs_path fsC2b "/drv" NVIDIA_CUDA_DSO_PATTERNS _ rfl
    "libcuda.so.1").mpr
    ⟨⟨["libcuda.so.1"], rfl, by decide⟩, by decide, by decide⟩

def fsC3 : Fs :=
  { dirs := ["/secret"]
    unreadable := ["/secret"]
    files := [⟨"/secret", "libcuda.so.1", .raw "x", 1, 1⟩] }

/-- C3 counterexample: an existing but unreadable directory makes
`resolve_libraries` raise the permission error instead of returning an
empty list. -/
theorem c3_unreadable_counterexample :
    resolve_libraries fsC3 "/secret" NVIDIA_CUDA_DSO_PATTERNS
      = .error .eacces := by
  rfl

/-- C3 (amended): `resolve_libraries` has no error handling around the
directory listing, so listing an existing unreadable directory propagates
the permission error to the caller. -/
theorem c3_unreadable_propagates (fs : Fs) (path : String)
    (pats : List DsoPattern) (hdir : isdir fs path = true)
    (hunread : fs.unreadable.any (fun d => d == path) = true) :
    resolve_libraries fs path pats = .error .eacces := by
  simp [resolve_libraries, listdir, hdir, hunread]

theorem c3_unreadable_propagates_witness :
    resolve_libraries fsC3 "/secret" NVIDIA_DSO_PATTERNS = .error .eacces :=
  c3_unreadable_propagates fsC3 "/secret" NVIDIA_DSO_PATTERNS rfl rfl

/-! ## Scanner gating (C6) -/

theorem resolve_mem_matches {fs : Fs} {path : String} {pats : List DsoPattern}
    {out : List ResolvedLib} (h : resolve_libraries fs path pats = .ok out) :
    ∀ r ∈ out, matchesAny pats r.fullpath = true := by
  rcases hls : listdir fs path with e | names
  · simp only [resolve_libraries, hls] at h
    exact Except.noConfusion h
  · simp only [resolve_libraries, hls, Except.ok.injEq] at h
    subst h
    intro r hr
    obtain ⟨a, _, hfa⟩ := List.mem_filterMap.mp hr
    rcases hfe : fileAt fs (pjoin path a) with _ | ent
    · rw [hfe] at hfa
      simp at hfa
    · rw [hfe] at hfa
      by_cases hm : matchesAny pats (pjoin path a) = true
      · simp only [hm, if_true] at hfa
        cases hfa
        exact hm
      · simp only [Bool.not_eq_true] at hm
        simp [hm] at hfa

/-- C6: the generic bucket gates the whole directory: an empty generic
resolution yields no `LibraryPath` at all; a non-empty one triggers the
three refinement resolutions; and every record of a bucket matches that
bucket's own pattern list (so a file matching only a generic pattern is
only in the generic bucket). -/
theorem c6_generic_gate :
    (∀ (fs : Fs) (path : String),
       resolve_libraries fs path NVIDIA_DSO_PATTERNS = .ok [] →
       scan_dsos_from_dir fs path = .ok none)
    ∧ (∀ (fs : Fs) (path : String) (generic : List ResolvedLib),
       resolve_libraries fs path NVIDIA_DSO_PATTERNS = .ok generic →
       generic ≠ [] →
       ∃ cuda glx egl,
         resolve_libraries fs path NVIDIA_CUDA_DSO_PATTERNS = .ok cuda ∧
         resolve_libraries fs path NVIDIA_GLX_DSO_PATTERNS = .ok glx ∧
         resolve_libraries fs path NVIDIA_EGL_DSO_PATTERNS = .ok egl ∧
         scan_dsos_from_dir fs path = .ok (some ⟨glx, cuda, generic, egl, path⟩))
    ∧ (∀ (fs : Fs) (path : String) (lp : LibraryPath),
       scan_dsos_from_dir fs path = .ok (some lp) →
       (∀ r ∈ lp.generic, matchesAny NVIDIA_DSO_PATTERNS r.fullpath = true) ∧
       (∀ r ∈ lp.cuda, matchesAny NVIDIA_CUDA_DSO_PATTERNS r.fullpath = true) ∧
       (∀ r ∈ lp.glx, matchesAny NVIDIA_GLX_DSO_PATTERNS r.fullpath = true) ∧
       (∀ r ∈ lp.egl, matchesAny NVIDIA_EGL_DSO_PATTERNS r.fullpath = true)) := by
  have hok : ∀ (fs : Fs) (path : String) (pats : List DsoPattern)
      (out : List ResolvedLib),
      resolve_libraries fs path pats = .ok out →
      ∀ pats' : List DsoPattern, ∃ out',
        resolve_libraries fs path pats' = .ok out' := by
    intro fs path pats out h pats'
    rcases hls : listdir fs path with e | names
    · simp only [resolve_libraries, hls] at h
      exact Except.noConfusion h
    · rcases h' : resolve_libraries fs path pats' with e' | out'
      · simp only [resolve_libraries, hls] at h'
        exact Except.noConfusion h'
      · exact ⟨out', rfl⟩
  refine ⟨?_, ?_, ?_⟩
  · intro fs path h
    simp [scan_dsos_from_dir, h]
  · intro fs path generic hgen hne
    obtain ⟨cuda, hcuda⟩ := hok fs path _ _ hgen NVIDIA_CUDA_DSO_PATTERNS
    obtain ⟨glx, hglx⟩ := hok fs path _ _ hgen NVIDIA_GLX_DSO_PATTERNS
    obtain ⟨egl, hegl⟩ := hok fs path _ _ hgen NVIDIA_EGL_DSO_PATTERNS
    have hpos : 0 < generic.length := List.length_pos.mpr hne
    refine ⟨cuda, glx, egl, hcuda, hglx, hegl, ?_⟩
    simp [scan_dsos_from_dir, hgen, hcuda, hglx, hegl, hpos]
  · intro fs path lp h
    rcases hgen : resolve_libraries fs path NVIDIA_DSO_PATTERNS with e | generic
    · simp only [scan_dsos_from_dir, hgen] at h
      exact Except.noConfusion h
    · simp only [scan_dsos_from_dir, hgen] at h
      by_cases hpos : 0 < generic.length
      · simp only [if_pos hpos] at h
        rcases hcuda : resolve_libraries fs path NVIDIA_CUDA_DSO_PATTERNS
          with e | cuda
        · rw [hcuda] at h
          exact Except.noConfusion h
        · rw [hcuda] at h
          rcases hglx : resolve_libraries fs path NVIDIA_GLX_DSO_PATTERNS
            with e | glx
          · rw [hglx] at h
            exact Except.noConfusion h
          · rw [hglx] at h
            rcases hegl : resolve_libraries fs path NVIDIA_EGL_DSO_PATTERNS
              with e | egl
            · rw [hegl] at h
              exact Except.noConfusion h
            · rw [hegl] at h
              simp only [Except.ok.injEq, Option.some.injEq] at h
              subst h
              exact ⟨resolve_mem_matches hgen, resolve_mem_matches hcuda,
                resolve_mem_matches hglx, resolve_mem_matches hegl⟩
      · simp [if_neg hpos] at h

def fsC6 : Fs :=
  { dirs := ["/d2"]
    unreadable := []
    files := [⟨"/d2", "libcuda.so.1", .raw "b", 1, 1⟩] }

theorem c6_generic_gate_witness :
    scan_dsos_from_dir fsC6 "/d2" = .ok none :=
  c6_generic_gate.1 fsC6 "/d2" rfl

/-! ## Patch Engine contract (C7) -/

/-- C7: `patch_dsos` invokes the external tool once for the whole batch
with argv `patchelf --set-rpath <rpath> <paths...>`, raises exactly when
that invocation exits non-zero, and returns normally on exit code 0. -/
theorem c7_patch_dsos_exit_status (ctx : Ctx) (dsoPaths : List String)
    (rpath : String) :
    (patch_dsos ctx dsoPaths rpath = .ok () ↔
      ctx.patchExit ([PATCHELF_PATH, "--set-rpath", rpath] ++ dsoPaths) = 0)
    ∧ (patch_dsos ctx dsoPaths rpath =
        .error (.patchFailed ([PATCHELF_PATH, "--set-rpath", rpath] ++ dsoPaths)
          (ctx.patchExit ([PATCHELF_PATH, "--set-rpath", rpath] ++ dsoPaths))) ↔
      ctx.patchExit ([PATCHELF_PATH, "--set-rpath", rpath] ++ dsoPaths) ≠ 0) := by
  unfold patch_dsos
  by_cases h :
      ctx.patchExit ([PATCHELF_PATH, "--set-rpath", rpath] ++ dsoPaths) = 0 <;>
    simp [h]

def ctxC7 : Ctx :=
  { patchExit := fun argv =>
      if argv = ["patchelf", "--set-rpath", "/rp", "/f.so"] then 1 else 0
    hashHex := fun s => s
    tmpRoot := "/t"
    ldLibraryPath := none
    prfx := none
    now := 0 }

theorem c7_patch_dsos_exit_status_witness :
    patch_dsos ctxC7 ["/f.so"] "/rp"
      = .error (.patchFailed ["patchelf", "--set-rpath", "/rp", "/f.so"] 1)
    ∧ patch_dsos ctxC7 ["/g.so"] "/rp" = .ok () :=
  ⟨(c7_patch_dsos_exit_status ctxC7 ["/f.so"] "/rp").2.mpr (by decide),
   (c7_patch_dsos_exit_status ctxC7 ["/g.so"] "/rp").1.mpr (by decide)⟩

/-! ## C1: which directories the pipeline scans -/

def ctxC1 : Ctx :=
  { patchExit := fun _ => 0
    hashHex := fun s => s
    tmpRoot := "/t"
    ldLibraryPath := none
    prfx := none
    now := 7 }

def fsC1 : Fs :=
  { dirs := ["/opt/drivers"]
    unreadable := []
    files := [⟨"/opt/drivers", "libnvidia-glcore.so.1", .raw "bits", 1, 4⟩] }

/-- C1: `nvidia_main` never reads its `dso_vendor_paths` argument: its
result is identical for any two caller-supplied lists, and the directories
handed to `scan_dsos_from_dir` are exactly `get_ld_paths()`.  Concretely,
with a loader search path that discovers nothing, the caller-supplied
directory `/opt/drivers` does hold driver DSOs that a scan would find,
yet the run behaves as if no driver directory exists and dies on the
empty-search-path assert. -/
theorem c1_vendor_paths_ignored :
    (∀ (ctx : Ctx) (fs : Fs) (cache_dir : String) (v1 v2 : List String)
       (pr : Bool),
       nvidia_main ctx fs cache_dir v1 pr = nvidia_main ctx fs cache_dir v2 pr)
    ∧ get_ld_paths ctxC1 fsC1 = []
    ∧ scan_dsos_from_dir fsC1 "/opt/drivers" =
        .ok (some ⟨[], [], [⟨"libnvidia-glcore.so.1", "/opt/drivers",
          "/opt/drivers/libnvidia-glcore.so.1", 1, 4⟩], [], "/opt/drivers"⟩)
    ∧ (∃ f, nvidia_main ctxC1 fsC1 "/hc/nix-gl-host" ["/opt/drivers"] false
        = .fail .assertEmpty f) := by
  exact ⟨fun ctx fs cache_dir v1 v2 pr => rfl, rfl, rfl, ⟨_, rfl⟩⟩

/-! ## C10: the reuse condition -/

/-- C10: even with an up-to-date `cache.json` snapshot, a missing
`ld_library_path` file forces a full rebuild; the cache is reused only
when the snapshot matches and the `ld_library_path` file exists; a stale
snapshot always rebuilds. -/
theorem c10_ld_file_required_for_reuse (ctx : Ctx) (fs : Fs)
    (cache_dir : String) (v : List String) (pr : Bool)
    (lps : List LibraryPath)
    (hscan : scanAll fs (get_ld_paths ctx fs) = .ok lps) :
    (is_dso_cache_up_to_date fs ⟨lps, CACHE_VERSION⟩
        (pjoin cache_dir "cache.json") = true →
     isfile fs (pjoin cache_dir "ld_library_path") = false →
     nvidia_main ctx fs cache_dir v pr =
       nvidiaTail ctx cache_dir
         (rebuildBranch ctx fs cache_dir ⟨lps, CACHE_VERSION⟩))
    ∧ (is_dso_cache_up_to_date fs ⟨lps, CACHE_VERSION⟩
        (pjoin cache_dir "cache.json") = true →
       isfile fs (pjoin cache_dir "ld_library_path") = true →
       nvidia_main ctx fs cache_dir v pr =
         nvidiaTail ctx cache_dir
           (reuseBranch fs (pjoin cache_dir "ld_library_path")))
    ∧ (is_dso_cache_up_to_date fs ⟨lps, CACHE_VERSION⟩
        (pjoin cache_dir "cache.json") = false →
       nvidia_main ctx fs cache_dir v pr =
         nvidiaTail ctx cache_dir
           (rebuildBranch ctx fs cache_dir ⟨lps, CACHE_VERSION⟩)) := by
  refine ⟨fun h1 h2 => ?_, fun h1 h2 => ?_, fun h1 => ?_⟩
  · simp [nvidia_main, hscan, h1, h2]
  · simp [nvidia_main, hscan, h1, h2]
  · simp [nvidia_main, hscan, h1]

def lpC10 : LibraryPath :=
  ⟨[], [], [⟨"libnvidia-glcore.so.1", "/drv", "/drv/libnvidia-glcore.so.1",
    1, 4⟩], [], "/drv"⟩

def ctxC10 : Ctx :=
  { patchExit := fun _ => 0
    hashHex := fun s => s
    tmpRoot := "/t"
    ldLibraryPath := some "/drv"
    prfx := none
    now := 7 }

def fsC10 : Fs :=
  { dirs := ["/drv", "/hc/nix-gl-host"]
    unreadable := []
    files := [⟨"/drv", "libnvidia-glcore.so.1", .raw "bits", 1, 4⟩,
              ⟨"/hc/nix-gl-host", "cache.json",
                .doc (CacheDirContent.to_json ⟨[lpC10], 3⟩), 2, 0⟩] }

theorem c10_ld_file_required_for_reuse_witness :
    nvidia_main ctxC10 fsC10 "/hc/nix-gl-host" [] false =
      nvidiaTail ctxC10 "/hc/nix-gl-host"
        (rebuildBranch ctxC10 fsC10 "/hc/nix-gl-host" ⟨[lpC10], CACHE_VERSION⟩) :=
  (c10_ld_file_required_for_reuse ctxC10 fsC10 "/hc/nix-gl-host" [] false
    [lpC10] (by rfl)).1 (by rfl) (by rfl)

/-! ## Path-prefix lemmas -/

theorem string_ext {s t : String} (h : s.toList = t.toList) : s = t := by
  cases s
  cases t
  exact congrArg String.mk h

theorem prefixMatch_iff (a b : List Char) : prefixMatch a b = true ↔ a <+: b := by
  induction a generalizing b with
  | nil => simp [prefixMatch]
  | cons x xs ih =>
    cases b with
    | nil => simp [prefixMatch]
    | cons y ys =>
      simp [prefixMatch, Bool.and_eq_true, beq_iff_eq, ih,
        List.cons_prefix_cons]

theorem pjoin_toList (d n : String) :
    (pjoin d n).toList = d.toList ++ '/' :: n.toList := by
  simp [pjoin, String.data_append]

theorem underB_iff (r p : String) :
    underB r p = true ↔ r = p ∨ (r.toList ++ ['/']) <+: p.toList := by
  have hsl : (r ++ "/").toList = r.toList ++ ['/'] := by
    simp [String.data_append]
  simp [underB, prefixMatch_iff, hsl, Bool.or_eq_true, beq_iff_eq]

theorem underB_refl (r : String) : underB r r = true := by
  simp [underB_iff]

theorem under_pjoin {r d : String} (h : underB r d = true) (n : String) :
    underB r (pjoin d n) = true := by
  rcases (underB_iff r d).mp h with heq | hpre
  · subst heq
    refine (underB_iff r (pjoin r n)).mpr (Or.inr ?_)
    rw [pjoin_toList]
    exact ⟨n.toList, by simp⟩
  · refine (underB_iff r (pjoin d n)).mpr (Or.inr ?_)
    rw [pjoin_toList]
    exact hpre.trans ⟨'/' :: n.toList, by simp⟩

theorem under_trans {a b c : String} (hab : underB a b = true)
    (hbc : underB b c = true) : underB a c = true := by
  rcases (underB_iff a b).mp hab with heq | hpre
  · subst heq
    exact hbc
  · rcases (underB_iff b c).mp hbc with heq' | hpre'
    · exact (underB_iff a c).mpr (Or.inr (heq' ▸ hpre))
    · refine (underB_iff a c).mpr (Or.inr ?_)
      exact (hpre.trans ⟨['/'], rfl⟩).trans hpre'

theorem under_of_slash_pfx {x y : String}
    (h : x.toList ++ ['/'] <+: y.toList ++ ['/']) : underB x y = true := by
  have hx : x.toList.length = x.length := rfl
  have hy : y.toList.length = y.length := rfl
  rcases Nat.lt_or_ge x.toList.length y.toList.length with hlt | hge
  · refine (underB_iff x y).mpr (Or.inr ?_)
    refine List.prefix_of_prefix_length_le h (List.prefix_append _ _) ?_
    simp only [List.length_append, List.length_singleton]
    omega
  · have hle := h.length_le
    simp only [List.length_append, List.length_singleton] at hle
    have hlen : (x.toList ++ ['/']).length = (y.toList ++ ['/']).length := by
      simp only [List.length_append, List.length_singleton]
      omega
    have heq := List.IsPrefix.eq_of_length h hlen
    have hxy : x.toList = y.toList := List.append_cancel_right heq
    rw [string_ext hxy]
    exact underB_refl y

theorem not_under_pjoin {R d : String} (n : String)
    (h1 : underB R d = false) (h2 : underB d R = false) :
    underB R (pjoin d n) = false := by
  cases hu : underB R (pjoin d n) with
  | false => rfl
  | true =>
    exfalso
    rcases (underB_iff R (pjoin d n)).mp hu with heq | hpre
    · have hdr : underB d R = true := by
        refine (underB_iff d R).mpr (Or.inr ?_)
        rw [heq, pjoin_toList]
        exact ⟨n.toList, by simp⟩
      simp [hdr] at h2
    · rw [pjoin_toList] at hpre
      have hB : (d.toList ++ ['/']) <+: d.toList ++ '/' :: n.toList :=
        ⟨n.toList, by simp⟩
      rcases Nat.le_total (R.toList ++ ['/']).length (d.toList ++ ['/']).length
        with hle | hle
      · have hp : (R.toList ++ ['/']) <+: (d.toList ++ ['/']) :=
          List.prefix_of_prefix_length_le hpre hB hle
        simp [under_of_slash_pfx hp] at h1
      · have hp : (d.toList ++ ['/']) <+: (R.toList ++ ['/']) :=
          List.prefix_of_prefix_length_le hB hpre hle
        simp [under_of_slash_pfx hp] at h2

theorem under_antichain {r1 r2 : String} (h12 : underB r1 r2 = false)
    (h21 : underB r2 r1 = false) :
    ∀ p, underB r1 p = true → underB r2 p = false := by
  intro p h1
  cases h2 : underB r2 p with
  | false => rfl
  | true =>
    exfalso
    rcases (underB_iff r1 p).mp h1 with e1 | q1 <;>
      rcases (underB_iff r2 p).mp h2 with e2 | q2
    · rw [e1, e2, underB_refl] at h12
      simp at h12
    · have hh : underB r2 r1 = true :=
        (underB_iff _ _).mpr (Or.inr (by rw [e1]; exact q2))
      simp [hh] at h21
    · have hh : underB r1 r2 = true :=
        (underB_iff _ _).mpr (Or.inr (by rw [e2]; exact q1))
      simp [hh] at h12
    · rcases Nat.le_total (r1.toList ++ ['/']).length (r2.toList ++ ['/']).length
        with hle | hle
      · have hp : (r1.toList ++ ['/']) <+: (r2.toList ++ ['/']) :=
          List.prefix_of_prefix_length_le q1 q2 hle
        simp [under_of_slash_pfx hp] at h12
      · have hp : (r2.toList ++ ['/']) <+: (r1.toList ++ ['/']) :=
          List.prefix_of_prefix_length_le q2 q1 hle
        simp [under_of_slash_pfx hp] at h21

/-! ## Generic list stability lemmas -/

theorem find?_filter_stable {α : Type} (l : List α) (p q : α → Bool)
    (h : ∀ e ∈ l, p e = true → q e = true) :
    (l.filter q).find? p = l.find? p := by
  induction l with
  | nil => rfl
  | cons a l ih =>
    have ih' := ih (fun e he => h e (List.mem_cons_of_mem a he))
    cases hq : q a with
    | true =>
      simp only [List.filter_cons, hq, if_true]
      cases hp : p a with
      | true => simp [List.find?, hp]
      | false => simp [List.find?, hp, ih']
    | false =>
      have hp : p a = false := by
        cases hp : p a with
        | false => rfl
        | true =>
          rw [h a (List.mem_cons_self a l) hp] at hq
          exact absurd hq (by simp)
      simp only [List.filter_cons, hq, Bool.false_eq_true, if_false]
      rw [ih']
      simp [List.find?, hp]

theorem find?_append_right_none {α : Type} (l1 l2 : List α) (p : α → Bool)
    (h : l2.find? p = none) : (l1 ++ l2).find? p = l1.find? p := by
  induction l1 with
  | nil => simpa using h
  | cons a l ih =>
    cases hp : p a with
    | true => simp [List.find?, hp]
    | false => simp [List.find?, hp, ih]

theorem any_filter_stable {α : Type} (l : List α) (p q : α → Bool)
    (h : ∀ e ∈ l, p e = true → q e = true) :
    (l.filter q).any p = l.any p := by
  induction l with
  | nil => rfl
  | cons a l ih =>
    have ih' := ih (fun e he => h e (List.mem_cons_of_mem a he))
    cases hq : q a with
    | true => simp [List.filter_cons, hq, ih']
    | false =>
      have hp : p a = false := by
        cases hp : p a with
        | false => rfl
        | true =>
          rw [h a (List.mem_cons_self a l) hp] at hq
          exact absurd hq (by simp)
      simp [List.filter_cons, hq, ih', hp]

theorem filter_filter_stable {α : Type} (l : List α) (p q : α → Bool)
    (h : ∀ e ∈ l, p e = true → q e = true) :
    (l.filter q).filter p = l.filter p := by
  induction l with
  | nil => rfl
  | cons a l ih =>
    have ih' := ih (fun e he => h e (List.mem_cons_of_mem a he))
    cases hq : q a with
    | true => simp [List.filter_cons, hq, ih']
    | false =>
      have hp : p a = false := by
        cases hp : p a with
        | false => rfl
        | true =>
          rw [h a (List.mem_cons_self a l) hp] at hq
          exact absurd hq (by simp)
      simp [List.filter_cons, hq, ih', hp]

theorem find?_map_stable {α : Type} (l : List α) (p : α → Bool) (f : α → α)
    (h : ∀ e ∈ l, p (f e) = p e ∧ (p e = true → f e = e)) :
    (l.map f).find? p = l.find? p := by
  induction l with
  | nil => rfl
  | cons a l ih =>
    have ih' := ih (fun e he => h e (List.mem_cons_of_mem a he))
    obtain ⟨hpa, hfa⟩ := h a (List.mem_cons_self a l)
    cases hp : p a with
    | true => simp [List.find?, hpa, hp, hfa hp]
    | false => simp [List.find?, hpa, hp, ih']

theorem any_map_stable {α : Type} (l : List α) (p : α → Bool) (f : α → α)
    (h : ∀ e ∈ l, p (f e) = p e) : (l.map f).any p = l.any p := by
  induction l with
  | nil => rfl
  | cons a l ih =>
    have ih' := ih (fun e he => h e (List.mem_cons_of_mem a he))
    simp [h a (List.mem_cons_self a l), ih']

theorem filter_map_stable {α : Type} (l : List α) (p : α → Bool) (f : α → α)
    (h : ∀ e ∈ l, p (f e) = p e ∧ (p e = true → f e = e)) :
    (l.map f).filter p = l.filter p := by
  induction l with
  | nil => rfl
  | cons a l ih =>
    have ih' := ih (fun e he => h e (List.mem_cons_of_mem a he))
    obtain ⟨hpa, hfa⟩ := h a (List.mem_cons_self a l)
    cases hp : p a with
    | true => simp [List.filter_cons, hpa, hp, ih', hfa hp]
    | false => simp [List.filter_cons, hpa, hp, ih']

/-! ## Filesystem agreement at a path -/

/-- Everything the pipeline can observe about one path string `p` in a
filesystem: whether it is a directory, the file entry at the path, its
unreadability, and the file entries listed inside it. -/
def agreeAt (a b : Fs) (p : String) : Prop :=
  isdir a p = isdir b p ∧ fileAt a p = fileAt b p
    ∧ a.unreadable.any (fun d => d == p) = b.unreadable.any (fun d => d == p)
    ∧ a.files.filter (fun e => e.dir == p) = b.files.filter (fun e => e.dir == p)

theorem agreeAt_refl (a : Fs) (p : String) : agreeAt a a p :=
  ⟨rfl, rfl, rfl, rfl⟩

theorem agreeAt_trans {a b c : Fs} {p : String} (h1 : agreeAt a b p)
    (h2 : agreeAt b c p) : agreeAt a c p :=
  ⟨h1.1.trans h2.1, h1.2.1.trans h2.2.1, h1.2.2.1.trans h2.2.2.1,
   h1.2.2.2.trans h2.2.2.2⟩

/-- A filesystem-transforming step that only touches paths at or below a
root leaves every other path's observations unchanged. -/
def PreservedOutside (R : String) (b a : Fs) : Prop :=
  ∀ p, underB R p = false → agreeAt b a p

theorem PreservedOutside.trans {R : String} {a b c : Fs}
    (h1 : PreservedOutside R b a) (h2 : PreservedOutside R c b) :
    PreservedOutside R c a :=
  fun p hp => agreeAt_trans (h2 p hp) (h1 p hp)

theorem PreservedOutside.refl (R : String) (a : Fs) : PreservedOutside R a a :=
  fun p _ => agreeAt_refl a p

/-! ## Per-operation preservation lemmas -/

theorem ne_of_under_not_under {R d p : String} (hd : underB R d = true)
    (hp : underB R p = false) : d ≠ p := by
  intro h
  rw [h, hp] at hd
  exact absurd hd (by simp)

theorem writeFile_preserved {R d : String} (fs : Fs) (n : String)
    (c : FContent) (t : Int) (hd : underB R d = true) :
    PreservedOutside R (fs.writeFile d n c t) fs := by
  intro p hp
  have hjoin : underB R (pjoin d n) = true := under_pjoin hd n
  have hjp : pjoin d n ≠ p := ne_of_under_not_under hjoin hp
  have hdp : d ≠ p := ne_of_under_not_under hd hp
  refine ⟨rfl, ?_, rfl, ?_⟩
  · simp only [fileAt, Fs.writeFile]
    rw [find?_append_right_none]
    · apply find?_filter_stable
      intro e _ hep
      have hep' : e.path = p := by simpa using hep
      cases hdn : (e.dir == d && e.name == n) with
      | false => simp [hdn]
      | true =>
        exfalso
        simp only [Bool.and_eq_true, beq_iff_eq] at hdn
        obtain ⟨h1, h2⟩ := hdn
        have hpd : e.path = pjoin d n := by
          simp only [FileEnt.path]
          rw [h1, h2]
        exact hjp (hpd ▸ hep')
    · have hfalse : (pjoin d n == p) = false := beq_eq_false_iff_ne.mpr hjp
      simp [List.find?, FileEnt.path, hfalse]
  · simp only [Fs.writeFile]
    rw [List.filter_append]
    have h2 : ([(⟨d, n, c, t, c.byteSize⟩ : FileEnt)].filter
        (fun e => e.dir == p)) = [] := by
      simp [beq_eq_false_iff_ne, hdp]
    rw [h2, List.append_nil]
    apply filter_filter_stable
    intro e _ hep
    have hedp : e.dir = p := by simpa using hep
    have hfalse : (e.dir == d) = false := by
      rw [hedp]
      exact beq_eq_false_iff_ne.mpr (Ne.symm hdp)
    simp [hfalse]

theorem makedirs_preserved {R d : String} (fs : Fs) (hd : underB R d = true) :
    PreservedOutside R (fs.makedirs d) fs := by
  intro p hp
  have hdp : d ≠ p := ne_of_under_not_under hd hp
  unfold Fs.makedirs
  cases hex : isdir fs d with
  | true => simp [agreeAt_refl]
  | false =>
    refine ⟨?_, rfl, rfl, rfl⟩
    show (fs.dirs ++ [d]).any (fun x => x == p) = fs.dirs.any (fun x => x == p)
    rw [List.any_append]
    simp [beq_eq_false_iff_ne, hdp]

theorem rmtree_preserved {R root : String} (fs : Fs)
    (hr : underB R root = true) : PreservedOutside R (fs.rmtree root) fs := by
  intro p hp
  have hrp : ∀ q, underB root q = true → q ≠ p := by
    intro q hq h
    rw [h] at hq
    rw [under_trans hr hq] at hp
    exact absurd hp (by simp)
  refine ⟨?_, ?_, ?_, ?_⟩
  · apply any_filter_stable
    intro e _ he
    have : e = p := by simpa using he
    cases hu : underB root e with
    | false => rfl
    | true => exact absurd this (hrp e hu)
  · apply find?_filter_stable
    intro e _ he
    have hep : e.path = p := by simpa using he
    cases hu : underB root e.dir with
    | false => rfl
    | true => exact absurd hep (hrp e.path (under_pjoin hu e.name))
  · apply any_filter_stable
    intro e _ he
    have : e = p := by simpa using he
    cases hu : underB root e with
    | false => rfl
    | true => exact absurd this (hrp e hu)
  · apply filter_filter_stable
    intro e _ he
    have : e.dir = p := by simpa using he
    cases hu : underB root e.dir with
    | false => rfl
    | true => exact absurd this (hrp e.dir hu)

theorem strDropN_toList (s : String) (n : Nat) :
    (strDropN s n).toList = s.toList.drop n := rfl

theorem toList_append (a b : String) :
    (a ++ b).toList = a.toList ++ b.toList := String.data_append a b

theorem append_empty_str (s : String) : s ++ "" = s := by
  apply string_ext
  simp [String.data_append]

theorem rebase_re_under {src dst q : String} (h : underB src q = true) :
    underB dst (dst ++ strDropN q src.length) = true := by
  rcases (underB_iff src q).mp h with heq | hpre
  · have h0 : strDropN q src.length = "" := by
      apply string_ext
      rw [strDropN_toList, heq]
      have h1 : q.length = q.toList.length := rfl
      rw [h1, List.drop_length]
      rfl
    rw [h0, append_empty_str]
    exact underB_refl dst
  · obtain ⟨t, ht⟩ := hpre
    refine (underB_iff dst _).mpr (Or.inr ?_)
    have hq : q.toList = src.toList ++ '/' :: t := by
      rw [← ht]
      simp
    have hdrop : (strDropN q src.length).toList = '/' :: t := by
      rw [strDropN_toList, hq]
      have h1 : src.length = src.toList.length := rfl
      rw [h1]
      exact List.drop_left src.toList ('/' :: t)
    rw [toList_append, hdrop]
    exact ⟨t, by simp⟩

theorem rebase_preserved {src dst : String} (fs : Fs) (p : String)
    (hps : underB src p = false) (hpd : underB dst p = false) :
    agreeAt (fs.rebase src dst) fs p := by
  have hre : ∀ q : String,
      ((if underB src q then dst ++ strDropN q src.length else q) == p)
        = (q == p) := by
    intro q
    cases hu : underB src q with
    | false => simp
    | true =>
      simp only [if_true]
      have h1 : (dst ++ strDropN q src.length) ≠ p :=
        ne_of_under_not_under (rebase_re_under hu) hpd
      have h2 : q ≠ p := ne_of_under_not_under hu hps
      simp [beq_eq_false_iff_ne, h1, h2]
  refine ⟨?_, ?_, ?_, ?_⟩
  · apply any_map_stable
    intro e _
    exact hre e
  · apply find?_map_stable
    intro e _
    constructor
    · show ((pjoin (if underB src e.dir then dst ++ strDropN e.dir src.length
        else e.dir) e.name) == p) = (e.path == p)
      cases hu : underB src e.dir with
      | false => simp [FileEnt.path]
      | true =>
        simp only [if_true]
        have h1 : pjoin (dst ++ strDropN e.dir src.length) e.name ≠ p :=
          ne_of_under_not_under (under_pjoin (rebase_re_under hu) e.name) hpd
        have h2 : e.path ≠ p :=
          ne_of_under_not_under (under_pjoin hu e.name) hps
        simp [beq_eq_false_iff_ne, h1, h2]
    · intro hep
      have hep' : e.path = p := by simpa using hep
      cases hu : underB src e.dir with
      | false => simp [hu]
      | true =>
        exfalso
        have : e.path ≠ p :=
          ne_of_under_not_under (under_pjoin hu e.name) hps
        exact this hep'
  · apply any_map_stable
    intro e _
    exact hre e
  · apply filter_map_stable
    intro e _
    constructor
    · cases hu : underB src e.dir with
      | false => simp [hu]
      | true =>
        simp only [hu, if_true]
        have h1 : (dst ++ strDropN e.dir src.length) ≠ p :=
          ne_of_under_not_under (rebase_re_under hu) hpd
        have h2 : e.dir ≠ p := ne_of_under_not_under hu hps
        simp [beq_eq_false_iff_ne, h1, h2]
    · intro hep
      have hep' : e.dir = p := by simpa using hep
      cases hu : underB src e.dir with
      | false => simp [hu]
      | true =>
        exact absurd hep' (ne_of_under_not_under hu hps)

/-! ## Composite preservation lemmas -/

/-- The filesystem carried by a `Res`, whatever the outcome. -/
def resFs {α : Type} : Res α → Fs
  | .ok _ fs => fs
  | .fail _ fs => fs

theorem copyfile_preserved {R d : String} (fs : Fs) (src n : String)
    (t : Int) (hd : underB R d = true) :
    PreservedOutside R (resFs (fs.copyfile src d n t)) fs := by
  unfold Fs.copyfile
  cases fileAt fs src with
  | some e => exact writeFile_preserved fs n e.content t hd
  | none => exact PreservedOutside.refl R fs

theorem copyLoop_preserved {R : String} (ctx : Ctx) {dest_dir : String}
    (hd : underB R dest_dir = true) :
    ∀ (dsos : List ResolvedLib) (fs : Fs) (acc : List String),
      PreservedOutside R (resFs (copyLoop ctx fs dest_dir dsos acc)) fs := by
  intro dsos
  induction dsos with
  | nil => exact fun fs acc => PreservedOutside.refl R fs
  | cons dso rest ih =>
    intro fs acc
    simp only [copyLoop]
    cases hc : fs.copyfile dso.fullpath dest_dir (basenameOf dso.fullpath)
        ctx.now with
    | ok u fs' =>
      have h1 : PreservedOutside R fs' fs := by
        have h := copyfile_preserved fs dso.fullpath
          (basenameOf dso.fullpath) ctx.now hd
        rw [hc] at h
        exact h
      exact PreservedOutside.trans h1 (ih fs' _)
    | fail e fs' =>
      have h := copyfile_preserved fs dso.fullpath
        (basenameOf dso.fullpath) ctx.now hd
      rw [hc] at h
      exact h

theorem copy_and_patch_preserved {R dest_dir : String} (ctx : Ctx) (fs : Fs)
    (dsos : List ResolvedLib) (rpath : Option String)
    (hd : underB R dest_dir = true) :
    PreservedOutside R (resFs (copy_and_patch_libs ctx fs dsos dest_dir rpath))
      fs := by
  unfold copy_and_patch_libs
  dsimp only
  cases hc : copyLoop ctx fs dest_dir dsos [] with
  | ok new_paths fs' =>
    have h1 := copyLoop_preserved ctx hd dsos fs []
    rw [hc] at h1
    dsimp only
    split
    · exact h1
    · exact h1
  | fail e fs' =>
    have h1 := copyLoop_preserved ctx hd dsos fs []
    rw [hc] at h1
    exact h1

theorem bucketStep_preserved {R d : String} (ctx : Ctx) (fs : Fs)
    (dsos : List ResolvedLib) (rpath : String) (hd : underB R d = true) :
    PreservedOutside R (resFs (bucketStep ctx fs dsos d rpath)) fs := by
  unfold bucketStep
  have h1 : PreservedOutside R (fs.makedirs d) fs := makedirs_preserved fs hd
  by_cases hlen : dsos.length > 0
  · simp only [if_pos hlen]
    exact PreservedOutside.trans h1
      (copy_and_patch_preserved ctx (fs.makedirs d) dsos (some rpath) hd)
  · simp only [if_neg hlen]
    exact h1

theorem cache_library_path_preserved {R tmp : String} (ctx : Ctx) (fs : Fs)
    (lp : LibraryPath) (final : String) (hR : underB R tmp = true) :
    PreservedOutside R (resFs (cache_library_path ctx fs lp tmp final)) fs := by
  unfold cache_library_path
  dsimp only
  have hlib : underB R (pjoin (pjoin tmp (ctx.hashHex lp.path)) "lib") = true :=
    under_pjoin (under_pjoin hR _) _
  have hcuda : underB R (pjoin (pjoin tmp (ctx.hashHex lp.path)) "cuda") = true :=
    under_pjoin (under_pjoin hR _) _
  have hegl : underB R (pjoin (pjoin tmp (ctx.hashHex lp.path)) "egl") = true :=
    under_pjoin (under_pjoin hR _) _
  have hglx : underB R (pjoin (pjoin tmp (ctx.hashHex lp.path)) "glx") = true :=
    under_pjoin (under_pjoin hR _) _
  cases hb1 : bucketStep ctx fs lp.generic
      (pjoin (pjoin tmp (ctx.hashHex lp.path)) "lib")
      (pjoin (pjoin final (ctx.hashHex lp.path)) "lib") with
  | fail e fs' =>
    have h := bucketStep_preserved ctx fs lp.generic
      (pjoin (pjoin final (ctx.hashHex lp.path)) "lib") hlib
    rw [hb1] at h
    exact h
  | ok u1 fs1 =>
    have h1 := bucketStep_preserved ctx fs lp.generic
      (pjoin (pjoin final (ctx.hashHex lp.path)) "lib") hlib
    rw [hb1] at h1
    dsimp only
    cases hb2 : bucketStep ctx fs1 lp.cuda
        (pjoin (pjoin tmp (ctx.hashHex lp.path)) "cuda")
        (pjoin (pjoin final (ctx.hashHex lp.path)) "lib") with
    | fail e fs' =>
      have h := bucketStep_preserved ctx fs1 lp.cuda
        (pjoin (pjoin final (ctx.hashHex lp.path)) "lib") hcuda
      rw [hb2] at h
      exact PreservedOutside.trans h1 h
    | ok u2 fs2 =>
      have h2 := bucketStep_preserved ctx fs1 lp.cuda
        (pjoin (pjoin final (ctx.hashHex lp.path)) "lib") hcuda
      rw [hb2] at h2
      dsimp only
      cases hb3 : bucketStep ctx fs2 lp.egl
          (pjoin (pjoin tmp (ctx.hashHex lp.path)) "egl")
          (pjoin (pjoin final (ctx.hashHex lp.path)) "lib") with
      | fail e fs' =>
        have h := bucketStep_preserved ctx fs2 lp.egl
          (pjoin (pjoin final (ctx.hashHex lp.path)) "lib") hegl
        rw [hb3] at h
        exact PreservedOutside.trans (PreservedOutside.trans h1 h2) h
      | ok u3 fs3 =>
        have h3 := bucketStep_preserved ctx fs2 lp.egl
          (pjoin (pjoin final (ctx.hashHex lp.path)) "lib") hegl
        rw [hb3] at h3
        dsimp only
        cases hb4 : bucketStep ctx fs3 lp.glx
            (pjoin (pjoin tmp (ctx.hashHex lp.path)) "glx")
            (pjoin (pjoin final (ctx.hashHex lp.path)) "lib") with
        | fail e fs' =>
          have h := bucketStep_preserved ctx fs3 lp.glx
            (pjoin (pjoin final (ctx.hashHex lp.path)) "lib") hglx
          rw [hb4] at h
          exact PreservedOutside.trans
            (PreservedOutside.trans (PreservedOutside.trans h1 h2) h3) h
        | ok u4 fs4 =>
          have h := bucketStep_preserved ctx fs3 lp.glx
            (pjoin (pjoin final (ctx.hashHex lp.path)) "lib") hglx
          rw [hb4] at h
          exact PreservedOutside.trans
            (PreservedOutside.trans (PreservedOutside.trans h1 h2) h3) h

theorem cachePathsLoop_preserved {R tmp : String} (ctx : Ctx)
    (final : String) (hR : underB R tmp = true) :
    ∀ (lps : List LibraryPath) (fs : Fs) (acc : List String),
      PreservedOutside R (resFs (cachePathsLoop ctx fs tmp final lps acc))
        fs := by
  intro lps
  induction lps with
  | nil => exact fun fs acc => PreservedOutside.refl R fs
  | cons lp rest ih =>
    intro fs acc
    simp only [cachePathsLoop]
    cases hc : cache_library_path ctx fs lp tmp final with
    | ok h0 fs' =>
      have h1 := cache_library_path_preserved ctx fs lp final hR
      rw [hc] at h1
      exact PreservedOutside.trans h1 (ih fs' _)
    | fail e fs' =>
      have h1 := cache_library_path_preserved ctx fs lp final hR
      rw [hc] at h1
      exact h1

theorem egl_confs_preserved {R egl_conf_dir : String} (ctx : Ctx) (fs : Fs)
    (h : underB R egl_conf_dir = true) :
    PreservedOutside R (generate_nvidia_egl_config_files ctx fs egl_conf_dir)
      fs := by
  unfold generate_nvidia_egl_config_files
  simp only [List.foldl]
  exact PreservedOutside.trans
    (PreservedOutside.trans
      (PreservedOutside.trans
        (PreservedOutside.trans
          (PreservedOutside.trans (makedirs_preserved fs h)
            (writeFile_preserved _ _ _ _ h))
          (makedirs_preserved _ h))
        (writeFile_preserved _ _ _ _ h))
      (PreservedOutside.trans (makedirs_preserved _ h)
        (writeFile_preserved _ _ _ _ h)))
    (PreservedOutside.refl R _)

theorem metadata_preserved {R cache_dir : String} (ctx : Ctx) (fs : Fs)
    (cc : CacheDirContent) (cps : List String)
    (h : underB R cache_dir = true) :
    PreservedOutside R
      (generate_cache_metadata ctx fs cache_dir cc cps).2 fs := by
  unfold generate_cache_metadata
  exact PreservedOutside.trans
    (PreservedOutside.trans (writeFile_preserved fs _ _ _ h)
      (writeFile_preserved _ _ _ _ h))
    (egl_confs_preserved ctx _ (under_pjoin h _))

theorem rebuild_fail_preserved (ctx : Ctx) (fs : Fs) (cache_dir : String)
    (cc : CacheDirContent) (e : Err) (f' : Fs)
    (h : rebuildBranch ctx fs cache_dir cc = .fail e f') :
    PreservedOutside ctx.tmpRoot f' fs := by
  unfold rebuildBranch at h
  dsimp only at h
  have hm1 : PreservedOutside ctx.tmpRoot (fs.makedirs ctx.tmpRoot) fs :=
    makedirs_preserved fs (underB_refl ctx.tmpRoot)
  have htcd : underB ctx.tmpRoot (pjoin ctx.tmpRoot "nix-gl-host") = true :=
    under_pjoin (underB_refl ctx.tmpRoot) _
  have hm2 : PreservedOutside ctx.tmpRoot
      ((fs.makedirs ctx.tmpRoot).makedirs (pjoin ctx.tmpRoot "nix-gl-host"))
      (fs.makedirs ctx.tmpRoot) :=
    makedirs_preserved _ htcd
  cases hl : cachePathsLoop ctx
      ((fs.makedirs ctx.tmpRoot).makedirs (pjoin ctx.tmpRoot "nix-gl-host"))
      (pjoin ctx.tmpRoot "nix-gl-host") cache_dir cc.paths [] with
  | fail e0 f0 =>
    rw [hl] at h
    simp only [Res.fail.injEq] at h
    obtain ⟨he, hf⟩ := h
    subst hf
    have hloop := cachePathsLoop_preserved ctx cache_dir htcd cc.paths
      ((fs.makedirs ctx.tmpRoot).makedirs (pjoin ctx.tmpRoot "nix-gl-host")) []
    rw [hl] at hloop
    exact PreservedOutside.trans
      (PreservedOutside.trans hm1 (PreservedOutside.trans hm2 hloop))
      (rmtree_preserved f0 (underB_refl ctx.tmpRoot))
  | ok cps f0 =>
    rw [hl] at h
    simp at h

/-! ## C8: failed rebuilds leave the cache root untouched -/

/-- C8: when `nvidia_main` fails before promotion (any error during the
scan, copy, patch or metadata steps — i.e. any failure other than the
post-promotion assert), every path at or below the real cache root is
observationally unchanged: same directory existence, same file entry,
same readability, same directory listing. -/
theorem c8_failed_rebuild_preserves_cache_root (ctx : Ctx) (fs : Fs)
    (cache_dir : String) (v : List String) (pr : Bool) (e : Err) (f' : Fs)
    (hd1 : underB cache_dir ctx.tmpRoot = false)
    (hd2 : underB ctx.tmpRoot cache_dir = false)
    (hrun : nvidia_main ctx fs cache_dir v pr = .fail e f')
    (he : e ≠ Err.assertEmpty) :
    ∀ p, underB cache_dir p = true → agreeAt f' fs p := by
  intro p hp
  have hpt : underB ctx.tmpRoot p = false := under_antichain hd1 hd2 p hp
  unfold nvidia_main at hrun
  dsimp only at hrun
  cases hs : scanAll fs (get_ld_paths ctx fs) with
  | error e0 =>
    rw [hs] at hrun
    dsimp only at hrun
    simp only [Res.fail.injEq] at hrun
    rw [← hrun.2]
    exact agreeAt_refl fs p
  | ok lps =>
    rw [hs] at hrun
    dsimp only at hrun
    by_cases hcond :
        (!is_dso_cache_up_to_date fs ⟨lps, CACHE_VERSION⟩
            (pjoin cache_dir "cache.json")
          || !isfile fs (pjoin cache_dir "ld_library_path")) = true
    · rw [if_pos hcond] at hrun
      cases hr : rebuildBranch ctx fs cache_dir ⟨lps, CACHE_VERSION⟩ with
      | fail e0 f0 =>
        rw [hr] at hrun
        simp only [nvidiaTail, Res.fail.injEq] at hrun
        obtain ⟨he0, hf0⟩ := hrun
        rw [← hf0]
        exact rebuild_fail_preserved ctx fs cache_dir ⟨lps, CACHE_VERSION⟩
          e0 f0 hr p hpt
      | ok s f0 =>
        rw [hr] at hrun
        simp only [nvidiaTail] at hrun
        by_cases hse : s.isEmpty = true
        · rw [if_pos hse] at hrun
          simp only [Res.fail.injEq] at hrun
          exact absurd hrun.1.symm he
        · rw [if_neg hse] at hrun
          exact Res.noConfusion hrun
    · rw [if_neg hcond] at hrun
      unfold reuseBranch at hrun
      cases hread : readFileOpt fs (pjoin cache_dir "ld_library_path") with
      | none =>
        rw [hread] at hrun
        simp only [nvidiaTail, Res.fail.injEq] at hrun
        rw [← hrun.2]
        exact agreeAt_refl fs p
      | some c =>
        rw [hread] at hrun
        simp only [nvidiaTail] at hrun
        by_cases hse : c.text.isEmpty = true
        · rw [if_pos hse] at hrun
          simp only [Res.fail.injEq] at hrun
          rw [← hrun.2]
          exact agreeAt_refl fs p
        · rw [if_neg hse] at hrun
          exact Res.noConfusion hrun

def ctxC8 : Ctx :=
  { patchExit := fun _ => 1
    hashHex := fun _ => "h"
    tmpRoot := "/t"
    ldLibraryPath := some "/drv"
    prfx := none
    now := 7 }

def fsC8 : Fs :=
  { dirs := ["/drv", "/hc/nix-gl-host"]
    unreadable := []
    files := [⟨"/drv", "libnvidia-glcore.so.1", .raw "bits", 1, 4⟩,
              ⟨"/hc/nix-gl-host", "cache.json", .raw "old cache", 2, 9⟩] }

theorem c8_failed_rebuild_preserves_cache_root_witness :
    ∃ f : Fs,
      nvidia_main ctxC8 fsC8 "/hc/nix-gl-host" [] false =
        .fail (.patchFailed ["patchelf", "--set-rpath", "/hc/nix-gl-host/h/lib",
          "/t/nix-gl-host/h/lib/libnvidia-glcore.so.1"] 1) f
      ∧ agreeAt f fsC8 "/hc/nix-gl-host"
      ∧ agreeAt f fsC8 "/hc/nix-gl-host/cache.json" := by
  refine ⟨_, rfl, ?_, ?_⟩
  · exact c8_failed_rebuild_preserves_cache_root ctxC8 fsC8 "/hc/nix-gl-host"
      [] false _ _ (by decide) (by decide) rfl (by decide) "/hc/nix-gl-host"
      (by decide)
  · exact c8_failed_rebuild_preserves_cache_root ctxC8 fsC8 "/hc/nix-gl-host"
      [] false _ _ (by decide) (by decide) rfl (by decide)
      "/hc/nix-gl-host/cache.json" (by decide)

/-! ## Slash-free file names and path injectivity -/

/-- Real directory entries have slash-free names; every name the pipeline
writes is slash-free, so this invariant is preserved. -/
def WfNames (fs : Fs) : Prop := ∀ e ∈ fs.files, '/' ∉ e.name.toList

theorem first_slash_split {u v : List Char} {x y : List Char}
    (hu : '/' ∉ u) (hv : '/' ∉ v) (h : u ++ '/' :: x = v ++ '/' :: y) :
    u = v ∧ x = y := by
  induction u generalizing v with
  | nil =>
    cases v with
    | nil => simpa using h
    | cons c v' =>
      simp only [List.nil_append, List.cons_append, List.cons.injEq] at h
      exact absurd (show ('/' : Char) ∈ c :: v' by
        rw [h.1]; exact List.mem_cons_self c v') hv
  | cons c u' ih =>
    cases v with
    | nil =>
      simp only [List.cons_append, List.nil_append, List.cons.injEq] at h
      exact absurd (show ('/' : Char) ∈ c :: u' by
        rw [← h.1]; exact List.mem_cons_self c u') hu
    | cons c' v' =>
      simp only [List.cons_append, List.cons.injEq] at h
      have hu' : '/' ∉ u' := fun hm => hu (List.mem_cons_of_mem c hm)
      have hv' : '/' ∉ v' := fun hm => hv (List.mem_cons_of_mem c' hm)
      obtain ⟨h1, h2⟩ := ih hu' hv' h.2
      exact ⟨by rw [h.1, h1], h2⟩

theorem pjoin_inj {d1 n1 d2 n2 : String} (h1 : '/' ∉ n1.toList)
    (h2 : '/' ∉ n2.toList) (h : pjoin d1 n1 = pjoin d2 n2) :
    d1 = d2 ∧ n1 = n2 := by
  have hl := congrArg String.toList h
  rw [pjoin_toList, pjoin_toList] at hl
  have hr := congrArg List.reverse hl
  simp only [List.reverse_append, List.reverse_cons] at hr
  have hr' : n1.toList.reverse ++ '/' :: d1.toList.reverse
      = n2.toList.reverse ++ '/' :: d2.toList.reverse := by
    simpa [List.append_assoc] using hr
  have hu : '/' ∉ n1.toList.reverse := by simpa using h1
  have hv : '/' ∉ n2.toList.reverse := by simpa using h2
  obtain ⟨ha, hb⟩ := first_slash_split hu hv hr'
  constructor
  · exact string_ext (List.reverse_injective hb)
  · exact string_ext (List.reverse_injective ha)

theorem asString_toList (l : List Char) : (l.asString).toList = l := rfl

theorem basenameOf_no_slash (p : String) : '/' ∉ (basenameOf p).toList := by
  intro hm
  rw [basenameOf, asString_toList, List.mem_reverse] at hm
  have := List.mem_takeWhile_imp hm
  simp at this

/-! ## Targeted fileAt tracking lemmas -/

theorem find?_append_left_none {α : Type} (l1 l2 : List α) (p : α → Bool)
    (h : l1.find? p = none) : (l1 ++ l2).find? p = l2.find? p := by
  induction l1 with
  | nil => rfl
  | cons a l ih =>
    cases hp : p a with
    | true => simp [List.find?, hp] at h
    | false =>
      simp only [List.find?, hp] at h
      simp [List.find?, hp, ih h]

theorem fileAt_makedirs (fs : Fs) (d p : String) :
    fileAt (fs.makedirs d) p = fileAt fs p := by
  unfold Fs.makedirs
  split <;> rfl

theorem fileAt_writeFile_other (fs : Fs) (d n : String) (c : FContent)
    (t : Int) (p : String) (hp : p ≠ pjoin d n) :
    fileAt (fs.writeFile d n c t) p = fileAt fs p := by
  simp only [fileAt, Fs.writeFile]
  rw [find?_append_right_none]
  · apply find?_filter_stable
    intro e _ hep
    have hep' : e.path = p := by simpa using hep
    cases hdn : (e.dir == d && e.name == n) with
    | false => simp [hdn]
    | true =>
      exfalso
      simp only [Bool.and_eq_true, beq_iff_eq] at hdn
      apply hp
      rw [← hep', FileEnt.path, hdn.1, hdn.2]
  · have hfalse : (pjoin d n == p) = false :=
      beq_eq_false_iff_ne.mpr (Ne.symm hp)
    simp [List.find?, FileEnt.path, hfalse]

theorem fileAt_writeFile_self (fs : Fs) (d n : String) (c : FContent)
    (t : Int) (hwf : WfNames fs) (hn : '/' ∉ n.toList) :
    fileAt (fs.writeFile d n c t) (pjoin d n)
      = some ⟨d, n, c, t, c.byteSize⟩ := by
  simp only [fileAt, Fs.writeFile]
  rw [find?_append_left_none]
  · simp [List.find?, FileEnt.path]
  · rw [List.find?_eq_none]
    intro e he hep
    have hmem := List.mem_filter.mp he
    have hep' : e.path = pjoin d n := by simpa using hep
    obtain ⟨hd, hn'⟩ := pjoin_inj (hwf e hmem.1) hn hep'
    have := hmem.2
    rw [hd, hn'] at this
    simp at this

theorem str_append_cancel_left {a x y : String} (h : a ++ x = a ++ y) :
    x = y := by
  have := congrArg String.toList h
  rw [toList_append, toList_append] at this
  exact string_ext (List.append_cancel_left this)

theorem pjoin_same_dir_ne (d a b : String) (hab : a ≠ b) :
    pjoin d a ≠ pjoin d b := by
  intro h
  apply hab
  apply string_ext
  have := congrArg String.toList h
  rw [pjoin_toList, pjoin_toList] at this
  have := List.append_cancel_left this
  simpa using this

theorem pjoin_nested_ne (t a b c : String) (hc : '/' ∉ c.toList) :
    pjoin (pjoin t a) b ≠ pjoin t c := by
  intro h
  apply hc
  have := congrArg String.toList h
  rw [pjoin_toList, pjoin_toList, pjoin_toList] at this
  simp only [List.append_assoc, List.cons_append] at this
  have h2 : a.toList ++ '/' :: b.toList = c.toList := by
    have := List.append_cancel_left this
    simpa using this
  rw [← h2]
  exact List.mem_append_right _ (List.mem_cons_self _ _)

theorem find?_map_char {α : Type} (l : List α) (f : α → α) (p q : α → Bool)
    (h : ∀ e ∈ l, p (f e) = q e) :
    (l.map f).find? p = (l.find? q).map f := by
  induction l with
  | nil => rfl
  | cons a l ih =>
    have ha := h a (List.mem_cons_self a l)
    have ih' := ih (fun e he => h e (List.mem_cons_of_mem a he))
    cases hq : q a with
    | true => simp [List.find?, ha, hq]
    | false => simp [List.find?, ha, hq, ih']

theorem strDropN_self_empty (s : String) : strDropN s s.length = "" := by
  apply string_ext
  rw [strDropN_toList]
  have h1 : s.length = s.toList.length := rfl
  rw [h1, List.drop_length]
  rfl

theorem under_proper {src q : String} (h : underB src q = true) :
    q = src ∨ ∃ t, q.toList = src.toList ++ '/' :: t := by
  rcases (underB_iff src q).mp h with heq | hpre
  · exact Or.inl heq.symm
  · obtain ⟨t, ht⟩ := hpre
    exact Or.inr ⟨t, by rw [← ht]; simp⟩

theorem fileAt_rebase_self (fs : Fs) (src dst n : String) (ent : FileEnt)
    (hwf : WfNames fs) (hn : '/' ∉ n.toList)
    (hentry : fileAt fs (pjoin src n) = some ent) (hdir : ent.dir = src)
    (hclean : ∀ e ∈ fs.files, e.path = pjoin dst n → underB src e.dir = true) :
    fileAt (fs.rebase src dst) (pjoin dst n) = some { ent with dir := dst } := by
  simp only [fileAt, Fs.rebase] at hentry ⊢
  rw [find?_map_char fs.files _ _ (fun e => e.path == pjoin src n) ?_]
  · rw [hentry]
    simp only [Option.map_some']
    have hd : (if underB src ent.dir = true then
        dst ++ strDropN ent.dir src.length else ent.dir) = dst := by
      rw [hdir]
      simp [underB_refl, strDropN_self_empty, append_empty_str]
    rw [hd]
  · intro e he
    simp only [FileEnt.path]
    cases hu : underB src e.dir with
    | true =>
      rw [if_pos rfl]
      rcases under_proper hu with heq | ⟨t, ht⟩
      · have hds : (dst ++ strDropN e.dir src.length) = dst := by
          rw [heq, strDropN_self_empty, append_empty_str]
        rw [hds]
        by_cases hen : e.name = n
        · rw [heq, hen]
          simp
        · have hL : pjoin dst e.name ≠ pjoin dst n := pjoin_same_dir_ne _ _ _ hen
          have hR : pjoin e.dir e.name ≠ pjoin src n := by
            rw [heq]
            exact pjoin_same_dir_ne _ _ _ hen
          rw [beq_eq_false_iff_ne.mpr hL, beq_eq_false_iff_ne.mpr hR]
      · have hdrop : (strDropN e.dir src.length).toList = '/' :: t := by
          rw [strDropN_toList, ht]
          have h1 : src.length = src.toList.length := rfl
          rw [h1]
          exact List.drop_left src.toList ('/' :: t)
        have hdirne : (dst ++ strDropN e.dir src.length) ≠ dst := by
          intro hcon
          have := congrArg String.toList hcon
          rw [toList_append, hdrop] at this
          have hlen := congrArg List.length this
          simp at hlen
        have hsrcne : e.dir ≠ src := by
          intro hcon
          rw [hcon] at ht
          have hlen := congrArg List.length ht
          simp at hlen
        have hL : pjoin (dst ++ strDropN e.dir src.length) e.name
            ≠ pjoin dst n := by
          intro hcon
          exact hdirne (pjoin_inj (hwf e he) hn hcon).1
        have hR : pjoin e.dir e.name ≠ pjoin src n := by
          intro hcon
          exact hsrcne (pjoin_inj (hwf e he) hn hcon).1
        rw [beq_eq_false_iff_ne.mpr hL, beq_eq_false_iff_ne.mpr hR]
    | false =>
      rw [if_neg Bool.false_ne_true]
      have hL : pjoin e.dir e.name ≠ pjoin dst n := by
        intro hcon
        have := hclean e he (by simpa [FileEnt.path] using hcon)
        rw [this] at hu
        exact absurd hu (by simp)
      have hR : pjoin e.dir e.name ≠ pjoin src n := by
        intro hcon
        obtain ⟨hd', -⟩ := pjoin_inj (hwf e he) hn hcon
        rw [hd', underB_refl] at hu
        exact absurd hu (by simp)
      rw [beq_eq_false_iff_ne.mpr hL, beq_eq_false_iff_ne.mpr hR]

/-! ## Preservation of the slash-free-names invariant -/

theorem wf_writeFile {fs : Fs} (hwf : WfNames fs) (d n : String)
    (c : FContent) (t : Int) (hn : '/' ∉ n.toList) :
    WfNames (fs.writeFile d n c t) := by
  intro e he
  simp only [Fs.writeFile, List.mem_append] at he
  rcases he with he | he
  · exact hwf e (List.mem_filter.mp he).1
  · simp only [List.mem_singleton] at he
    rw [he]
    exact hn

theorem wf_makedirs {fs : Fs} (hwf : WfNames fs) (d : String) :
    WfNames (fs.makedirs d) := by
  unfold Fs.makedirs
  split
  · exact hwf
  · exact hwf

theorem wf_rmtree {fs : Fs} (hwf : WfNames fs) (root : String) :
    WfNames (fs.rmtree root) := by
  intro e he
  exact hwf e (List.mem_filter.mp he).1

theorem wf_rebase {fs : Fs} (hwf : WfNames fs) (src dst : String) :
    WfNames (fs.rebase src dst) := by
  intro e he
  simp only [Fs.rebase, List.mem_map] at he
  obtain ⟨a, ha, hae⟩ := he
  rw [← hae]
  exact hwf a ha

theorem wf_copyfile {fs : Fs} (hwf : WfNames fs) (src d n : String)
    (t : Int) (hn : '/' ∉ n.toList) :
    WfNames (resFs (fs.copyfile src d n t)) := by
  unfold Fs.copyfile
  cases fileAt fs src with
  | some e => exact wf_writeFile hwf d n e.content t hn
  | none => exact hwf

theorem wf_copyLoop (ctx : Ctx) (dest_dir : String) :
    ∀ (dsos : List ResolvedLib) (fs : Fs) (acc : List String),
      WfNames fs → WfNames (resFs (copyLoop ctx fs dest_dir dsos acc)) := by
  intro dsos
  induction dsos with
  | nil => exact fun fs acc hwf => hwf
  | cons dso rest ih =>
    intro fs acc hwf
    simp only [copyLoop]
    cases hc : fs.copyfile dso.fullpath dest_dir (basenameOf dso.fullpath)
        ctx.now with
    | ok u fs' =>
      have h1 := wf_copyfile hwf dso.fullpath dest_dir
        (basenameOf dso.fullpath) ctx.now (basenameOf_no_slash _)
      rw [hc] at h1
      exact ih fs' _ h1
    | fail e fs' =>
      have h1 := wf_copyfile hwf dso.fullpath dest_dir
        (basenameOf dso.fullpath) ctx.now (basenameOf_no_slash _)
      rw [hc] at h1
      exact h1

theorem wf_copy_and_patch (ctx : Ctx) (fs : Fs) (dsos : List ResolvedLib)
    (dest_dir : String) (rpath : Option String) (hwf : WfNames fs) :
    WfNames (resFs (copy_and_patch_libs ctx fs dsos dest_dir rpath)) := by
  unfold copy_and_patch_libs
  dsimp only
  cases hc : copyLoop ctx fs dest_dir dsos [] with
  | ok new_paths fs' =>
    have h1 := wf_copyLoop ctx dest_dir dsos fs [] hwf
    rw [hc] at h1
    dsimp only
    split
    · exact h1
    · exact h1
  | fail e fs' =>
    have h1 := wf_copyLoop ctx dest_dir dsos fs [] hwf
    rw [hc] at h1
    exact h1

theorem wf_bucketStep (ctx : Ctx) (fs : Fs) (dsos : List ResolvedLib)
    (d rpath : String) (hwf : WfNames fs) :
    WfNames (resFs (bucketStep ctx fs dsos d rpath)) := by
  unfold bucketStep
  have h1 : WfNames (fs.makedirs d) := wf_makedirs hwf d
  by_cases hlen : dsos.length > 0
  · simp only [if_pos hlen]
    exact wf_copy_and_patch ctx (fs.makedirs d) dsos d (some rpath) h1
  · simp only [if_neg hlen]
    exact h1

theorem wf_cache_library_path (ctx : Ctx) (fs : Fs) (lp : LibraryPath)
    (tmp final : String) (hwf : WfNames fs) :
    WfNames (resFs (cache_library_path ctx fs lp tmp final)) := by
  unfold cache_library_path
  dsimp only
  cases hb1 : bucketStep ctx fs lp.generic
      (pjoin (pjoin tmp (ctx.hashHex lp.path)) "lib")
      (pjoin (pjoin final (ctx.hashHex lp.path)) "lib") with
  | fail e fs' =>
    have h := wf_bucketStep ctx fs lp.generic
      (pjoin (pjoin tmp (ctx.hashHex lp.path)) "lib")
      (pjoin (pjoin final (ctx.hashHex lp.path)) "lib") hwf
    rw [hb1] at h
    exact h
  | ok u1 fs1 =>
    have h1 := wf_bucketStep ctx fs lp.generic
      (pjoin (pjoin tmp (ctx.hashHex lp.path)) "lib")
      (pjoin (pjoin final (ctx.hashHex lp.path)) "lib") hwf
    rw [hb1] at h1
    dsimp only
    cases hb2 : bucketStep ctx fs1 lp.cuda
        (pjoin (pjoin tmp (ctx.hashHex lp.path)) "cuda")
        (pjoin (pjoin final (ctx.hashHex lp.path)) "lib") with
    | fail e fs' =>
      have h := wf_bucketStep ctx fs1 lp.cuda
        (pjoin (pjoin tmp (ctx.hashHex lp.path)) "cuda")
        (pjoin (pjoin final (ctx.hashHex lp.path)) "lib") h1
      rw [hb2] at h
      exact h
    | ok u2 fs2 =>
      have h2 := wf_bucketStep ctx fs1 lp.cuda
        (pjoin (pjoin tmp (ctx.hashHex lp.path)) "cuda")
        (pjoin (pjoin final (ctx.hashHex lp.path)) "lib") h1
      rw [hb2] at h2
      dsimp only
      cases hb3 : bucketStep ctx fs2 lp.egl
          (pjoin (pjoin tmp (ctx.hashHex lp.path)) "egl")
          (pjoin (pjoin final (ctx.hashHex lp.path)) "lib") with
      | fail e fs' =>
        have h := wf_bucketStep ctx fs2 lp.egl
          (pjoin (pjoin tmp (ctx.hashHex lp.path)) "egl")
          (pjoin (pjoin final (ctx.hashHex lp.path)) "lib") h2
        rw [hb3] at h
        exact h
      | ok u3 fs3 =>
        have h3 := wf_bucketStep ctx fs2 lp.egl
          (pjoin (pjoin tmp (ctx.hashHex lp.path)) "egl")
          (pjoin (pjoin final (ctx.hashHex lp.path)) "lib") h2
        rw [hb3] at h3
        dsimp only
        cases hb4 : bucketStep ctx fs3 lp.glx
            (pjoin (pjoin tmp (ctx.hashHex lp.path)) "glx")
            (pjoin (pjoin final (ctx.hashHex lp.path)) "lib") with
        | fail e fs' =>
          have h := wf_bucketStep ctx fs3 lp.glx
            (pjoin (pjoin tmp (ctx.hashHex lp.path)) "glx")
            (pjoin (pjoin final (ctx.hashHex lp.path)) "lib") h3
          rw [hb4] at h
          exact h
        | ok u4 fs4 =>
          have h := wf_bucketStep ctx fs3 lp.glx
            (pjoin (pjoin tmp (ctx.hashHex lp.path)) "glx")
            (pjoin (pjoin final (ctx.hashHex lp.path)) "lib") h3
          rw [hb4] at h
          exact h

theorem wf_cachePathsLoop (ctx : Ctx) (tmp final : String) :
    ∀ (lps : List LibraryPath) (fs : Fs) (acc : List String),
      WfNames fs →
      WfNames (resFs (cachePathsLoop ctx fs tmp final lps acc)) := by
  intro lps
  induction lps with
  | nil => exact fun fs acc hwf => hwf
  | cons lp rest ih =>
    intro fs acc hwf
    simp only [cachePathsLoop]
    cases hc : cache_library_path ctx fs lp tmp final with
    | ok h0 fs' =>
      have h1 := wf_cache_library_path ctx fs lp tmp final hwf
      rw [hc] at h1
      exact ih fs' _ h1
    | fail e fs' =>
      have h1 := wf_cache_library_path ctx fs lp tmp final hwf
      rw [hc] at h1
      exact h1

theorem wf_egl_confs (ctx : Ctx) (fs : Fs) (egl_conf_dir : String)
    (hwf : WfNames fs) :
    WfNames (generate_nvidia_egl_config_files ctx fs egl_conf_dir) := by
  unfold generate_nvidia_egl_config_files
  simp only [List.foldl]
  exact wf_writeFile (wf_makedirs (wf_writeFile (wf_makedirs
    (wf_writeFile (wf_makedirs hwf _) _ _ _ _ (by decide)) _) _ _ _ _
    (by decide)) _) _ _ _ _ (by decide)

theorem wf_metadata (ctx : Ctx) (fs : Fs) (cache_dir : String)
    (cc : CacheDirContent) (cps : List String) (hwf : WfNames fs) :
    WfNames (generate_cache_metadata ctx fs cache_dir cc cps).2 := by
  unfold generate_cache_metadata
  exact wf_egl_confs ctx _ _ (wf_writeFile (wf_writeFile hwf _ _ _ _
    (by decide)) _ _ _ _ (by decide))

/-! ## Effects of a successful rebuild -/

theorem fileAt_egl_confs (ctx : Ctx) (fs : Fs) (e p : String)
    (h1 : p ≠ pjoin e "10_nvidia.json")
    (h2 : p ≠ pjoin e "10_nvidia_wayland.json")
    (h3 : p ≠ pjoin e "15_nvidia_gbm.json") :
    fileAt (generate_nvidia_egl_config_files ctx fs e) p = fileAt fs p := by
  unfold generate_nvidia_egl_config_files
  simp only [List.foldl]
  rw [fileAt_writeFile_other _ _ _ _ _ _ h3, fileAt_makedirs,
    fileAt_writeFile_other _ _ _ _ _ _ h2, fileAt_makedirs,
    fileAt_writeFile_other _ _ _ _ _ _ h1, fileAt_makedirs]

theorem rebuild_ok_preserved (ctx : Ctx) (fs : Fs) (cache_dir : String)
    (cc : CacheDirContent) (s : String) (f0 : Fs)
    (h : rebuildBranch ctx fs cache_dir cc = .ok s f0) :
    ∀ p, underB ctx.tmpRoot p = false → underB cache_dir p = false →
      underB (pjoin (dirnameOf cache_dir)
        (basenameOf (pjoin ctx.tmpRoot "nix-gl-host"))) p = false →
      agreeAt f0 fs p := by
  intro p h1 h2 h3
  have htcd : underB ctx.tmpRoot (pjoin ctx.tmpRoot "nix-gl-host") = true :=
    under_pjoin (underB_refl ctx.tmpRoot) _
  have hTp : underB (pjoin ctx.tmpRoot "nix-gl-host") p = false := by
    cases hu : underB (pjoin ctx.tmpRoot "nix-gl-host") p with
    | false => rfl
    | true =>
      rw [under_trans htcd hu] at h1
      exact absurd h1 (by simp)
  unfold rebuildBranch at h
  dsimp only at h
  cases hl : cachePathsLoop ctx
      ((fs.makedirs ctx.tmpRoot).makedirs (pjoin ctx.tmpRoot "nix-gl-host"))
      (pjoin ctx.tmpRoot "nix-gl-host") cache_dir cc.paths [] with
  | fail e0 f2 =>
    rw [hl] at h
    exact Res.noConfusion h
  | ok cps f2 =>
    rw [hl] at h
    dsimp only at h
    simp only [Res.ok.injEq] at h
    obtain ⟨hs, hf0⟩ := h
    have a1 : agreeAt (fs.makedirs ctx.tmpRoot) fs p :=
      makedirs_preserved fs (underB_refl ctx.tmpRoot) p h1
    have a2 : agreeAt
        ((fs.makedirs ctx.tmpRoot).makedirs (pjoin ctx.tmpRoot "nix-gl-host"))
        (fs.makedirs ctx.tmpRoot) p :=
      makedirs_preserved _ htcd p h1
    have a3 : agreeAt f2
        ((fs.makedirs ctx.tmpRoot).makedirs (pjoin ctx.tmpRoot "nix-gl-host"))
        p := by
      have hloop := cachePathsLoop_preserved ctx cache_dir htcd cc.paths
        ((fs.makedirs ctx.tmpRoot).makedirs (pjoin ctx.tmpRoot "nix-gl-host"))
        []
      rw [hl] at hloop
      exact hloop p h1
    have a4 : agreeAt
        (generate_cache_metadata ctx f2 (pjoin ctx.tmpRoot "nix-gl-host") cc
          (List.map (fun p => pjoin cache_dir p) cps)).2 f2 p :=
      metadata_preserved ctx f2 cc _ htcd p h1
    have a5 : agreeAt
        (if existsP (generate_cache_metadata ctx f2
            (pjoin ctx.tmpRoot "nix-gl-host") cc
            (List.map (fun p => pjoin cache_dir p) cps)).2 cache_dir then
          ((generate_cache_metadata ctx f2 (pjoin ctx.tmpRoot "nix-gl-host") cc
            (List.map (fun p => pjoin cache_dir p) cps)).2).rmtree cache_dir
        else (generate_cache_metadata ctx f2
          (pjoin ctx.tmpRoot "nix-gl-host") cc
          (List.map (fun p => pjoin cache_dir p) cps)).2)
        (generate_cache_metadata ctx f2 (pjoin ctx.tmpRoot "nix-gl-host") cc
          (List.map (fun p => pjoin cache_dir p) cps)).2 p := by
      split
      · exact rmtree_preserved _ (underB_refl cache_dir) p h2
      · exact agreeAt_refl _ p
    have a6 := rebase_preserved
      (if existsP (generate_cache_metadata ctx f2
          (pjoin ctx.tmpRoot "nix-gl-host") cc
          (List.map (fun p => pjoin cache_dir p) cps)).2 cache_dir then
        ((generate_cache_metadata ctx f2 (pjoin ctx.tmpRoot "nix-gl-host") cc
          (List.map (fun p => pjoin cache_dir p) cps)).2).rmtree cache_dir
      else (generate_cache_metadata ctx f2
        (pjoin ctx.tmpRoot "nix-gl-host") cc
        (List.map (fun p => pjoin cache_dir p) cps)).2)
      p hTp h3
    rw [← hf0]
    exact agreeAt_trans (rmtree_preserved _ (underB_refl ctx.tmpRoot) p h1)
      (agreeAt_trans a6 (agreeAt_trans a5
        (agreeAt_trans a4 (agreeAt_trans a3 (agreeAt_trans a2 a1)))))

theorem promote_content (ctx : Ctx) (f2 : Fs) (cache_dir T L : String)
    (J : Json) (hwf2 : WfNames f2) (hTt : underB ctx.tmpRoot T = true)
    (hd1 : underB cache_dir ctx.tmpRoot = false)
    (hd2 : underB ctx.tmpRoot cache_dir = false) :
    fileAt ((((generate_nvidia_egl_config_files ctx
          ((f2.writeFile T "cache.json" (FContent.doc J) ctx.now).writeFile T
            "ld_library_path" (FContent.raw L) ctx.now)
          (pjoin T "egl-confs")).rmtree cache_dir).rebase T cache_dir).rmtree
        ctx.tmpRoot) (pjoin cache_dir "cache.json")
      = some ⟨cache_dir, "cache.json", FContent.doc J, ctx.now,
          (FContent.doc J).byteSize⟩
    ∧ fileAt ((((generate_nvidia_egl_config_files ctx
          ((f2.writeFile T "cache.json" (FContent.doc J) ctx.now).writeFile T
            "ld_library_path" (FContent.raw L) ctx.now)
          (pjoin T "egl-confs")).rmtree cache_dir).rebase T cache_dir).rmtree
        ctx.tmpRoot) (pjoin cache_dir "ld_library_path")
      = some ⟨cache_dir, "ld_library_path", FContent.raw L, ctx.now,
          (FContent.raw L).byteSize⟩ := by
  have hA := fileAt_writeFile_self f2 T "cache.json" (FContent.doc J) ctx.now
    hwf2 (by decide)
  have wfA : WfNames (f2.writeFile T "cache.json" (FContent.doc J) ctx.now) :=
    wf_writeFile hwf2 T "cache.json" _ _ (by decide)
  have hB1 : fileAt ((f2.writeFile T "cache.json" (FContent.doc J)
      ctx.now).writeFile T "ld_library_path" (FContent.raw L) ctx.now)
      (pjoin T "cache.json")
      = some ⟨T, "cache.json", FContent.doc J, ctx.now,
          (FContent.doc J).byteSize⟩ := by
    rw [fileAt_writeFile_other _ _ _ _ _ _
      (pjoin_same_dir_ne T "cache.json" "ld_library_path" (by decide))]
    exact hA
  have hB2 := fileAt_writeFile_self
    (f2.writeFile T "cache.json" (FContent.doc J) ctx.now) T
    "ld_library_path" (FContent.raw L) ctx.now wfA (by decide)
  have wfB : WfNames ((f2.writeFile T "cache.json" (FContent.doc J)
      ctx.now).writeFile T "ld_library_path" (FContent.raw L) ctx.now) :=
    wf_writeFile wfA T "ld_library_path" _ _ (by decide)
  have hG1 : fileAt (generate_nvidia_egl_config_files ctx
      ((f2.writeFile T "cache.json" (FContent.doc J) ctx.now).writeFile T
        "ld_library_path" (FContent.raw L) ctx.now) (pjoin T "egl-confs"))
      (pjoin T "cache.json")
      = some ⟨T, "cache.json", FContent.doc J, ctx.now,
          (FContent.doc J).byteSize⟩ := by
    rw [fileAt_egl_confs ctx _ _ _
      (Ne.symm (pjoin_nested_ne T "egl-confs" "10_nvidia.json"
        "cache.json" (by decide)))
      (Ne.symm (pjoin_nested_ne T "egl-confs" "10_nvidia_wayland.json"
        "cache.json" (by decide)))
      (Ne.symm (pjoin_nested_ne T "egl-confs" "15_nvidia_gbm.json"
        "cache.json" (by decide)))]
    exact hB1
  have hG2 : fileAt (generate_nvidia_egl_config_files ctx
      ((f2.writeFile T "cache.json" (FContent.doc J) ctx.now).writeFile T
        "ld_library_path" (FContent.raw L) ctx.now) (pjoin T "egl-confs"))
      (pjoin T "ld_library_path")
      = some ⟨T, "ld_library_path", FContent.raw L, ctx.now,
          (FContent.raw L).byteSize⟩ := by
    rw [fileAt_egl_confs ctx _ _ _
      (Ne.symm (pjoin_nested_ne T "egl-confs" "10_nvidia.json"
        "ld_library_path" (by decide)))
      (Ne.symm (pjoin_nested_ne T "egl-confs" "10_nvidia_wayland.json"
        "ld_library_path" (by decide)))
      (Ne.symm (pjoin_nested_ne T "egl-confs" "15_nvidia_gbm.json"
        "ld_library_path" (by decide)))]
    exact hB2
  have wfG : WfNames (generate_nvidia_egl_config_files ctx
      ((f2.writeFile T "cache.json" (FContent.doc J) ctx.now).writeFile T
        "ld_library_path" (FContent.raw L) ctx.now) (pjoin T "egl-confs")) :=
    wf_egl_confs ctx _ _ wfB
  have hPcJ : underB cache_dir (pjoin T "cache.json") = false :=
    under_antichain hd2 hd1 _ (under_pjoin hTt _)
  have hPcL : underB cache_dir (pjoin T "ld_library_path") = false :=
    under_antichain hd2 hd1 _ (under_pjoin hTt _)
  have h4J : fileAt ((generate_nvidia_egl_config_files ctx
      ((f2.writeFile T "cache.json" (FContent.doc J) ctx.now).writeFile T
        "ld_library_path" (FContent.raw L) ctx.now)
      (pjoin T "egl-confs")).rmtree cache_dir) (pjoin T "cache.json")
      = some ⟨T, "cache.json", FContent.doc J, ctx.now,
          (FContent.doc J).byteSize⟩ := by
    rw [(rmtree_preserved _ (underB_refl cache_dir) _ hPcJ).2.1]
    exact hG1
  have h4L : fileAt ((generate_nvidia_egl_config_files ctx
      ((f2.writeFile T "cache.json" (FContent.doc J) ctx.now).writeFile T
        "ld_library_path" (FContent.raw L) ctx.now)
      (pjoin T "egl-confs")).rmtree cache_dir) (pjoin T "ld_library_path")
      = some ⟨T, "ld_library_path", FContent.raw L, ctx.now,
          (FContent.raw L).byteSize⟩ := by
    rw [(rmtree_preserved _ (underB_refl cache_dir) _ hPcL).2.1]
    exact hG2
  have wf4 : WfNames ((generate_nvidia_egl_config_files ctx
      ((f2.writeFile T "cache.json" (FContent.doc J) ctx.now).writeFile T
        "ld_library_path" (FContent.raw L) ctx.now)
      (pjoin T "egl-confs")).rmtree cache_dir) := wf_rmtree wfG cache_dir
  have hclean : ∀ e ∈ ((generate_nvidia_egl_config_files ctx
      ((f2.writeFile T "cache.json" (FContent.doc J) ctx.now).writeFile T
        "ld_library_path" (FContent.raw L) ctx.now)
      (pjoin T "egl-confs")).rmtree cache_dir).files,
      ∀ nm : String, '/' ∉ nm.toList →
      e.path = pjoin cache_dir nm → underB T e.dir = true := by
    intro e he nm hnm hp
    exfalso
    have hm := List.mem_filter.mp he
    have hp' : pjoin e.dir e.name = pjoin cache_dir nm := hp
    obtain ⟨hd', -⟩ := pjoin_inj (wfG e hm.1) hnm hp'
    have hk := hm.2
    rw [hd', underB_refl] at hk
    simp at hk
  have h5J := fileAt_rebase_self _ T cache_dir "cache.json"
    ⟨T, "cache.json", FContent.doc J, ctx.now, (FContent.doc J).byteSize⟩
    wf4 (by decide) h4J rfl
    (fun e he hp => hclean e he "cache.json" (by decide) hp)
  have h5L := fileAt_rebase_self _ T cache_dir "ld_library_path"
    ⟨T, "ld_library_path", FContent.raw L, ctx.now, (FContent.raw L).byteSize⟩
    wf4 (by decide) h4L rfl
    (fun e he hp => hclean e he "ld_library_path" (by decide) hp)
  have hPtJ : underB ctx.tmpRoot (pjoin cache_dir "cache.json") = false :=
    under_antichain hd1 hd2 _ (under_pjoin (underB_refl cache_dir) _)
  have hPtL : underB ctx.tmpRoot (pjoin cache_dir "ld_library_path") = false :=
    under_antichain hd1 hd2 _ (under_pjoin (underB_refl cache_dir) _)
  constructor
  · rw [(rmtree_preserved _ (underB_refl ctx.tmpRoot) _ hPtJ).2.1]
    rw [h5J]
  · rw [(rmtree_preserved _ (underB_refl ctx.tmpRoot) _ hPtL).2.1]
    rw [h5L]

theorem rebuild_ok_content (ctx : Ctx) (fs : Fs) (cache_dir : String)
    (cc : CacheDirContent) (s : String) (f0 : Fs)
    (hwf : WfNames fs) (hcache : isdir fs cache_dir = true)
    (hd1 : underB cache_dir ctx.tmpRoot = false)
    (hd2 : underB ctx.tmpRoot cache_dir = false)
    (hcd : pjoin (dirnameOf cache_dir)
      (basenameOf (pjoin ctx.tmpRoot "nix-gl-host")) = cache_dir)
    (h : rebuildBranch ctx fs cache_dir cc = .ok s f0) :
    fileAt f0 (pjoin cache_dir "cache.json")
      = some ⟨cache_dir, "cache.json", .doc cc.to_json, ctx.now,
          (FContent.doc cc.to_json).byteSize⟩
    ∧ fileAt f0 (pjoin cache_dir "ld_library_path")
      = some ⟨cache_dir, "ld_library_path", .raw s, ctx.now,
          (FContent.raw s).byteSize⟩ := by
  have htcd : underB ctx.tmpRoot (pjoin ctx.tmpRoot "nix-gl-host") = true :=
    under_pjoin (underB_refl ctx.tmpRoot) _
  unfold rebuildBranch at h
  dsimp only at h
  cases hl : cachePathsLoop ctx
      ((fs.makedirs ctx.tmpRoot).makedirs (pjoin ctx.tmpRoot "nix-gl-host"))
      (pjoin ctx.tmpRoot "nix-gl-host") cache_dir cc.paths [] with
  | fail e0 f2 =>
    rw [hl] at h
    exact Res.noConfusion h
  | ok cps f2 =>
    rw [hl] at h
    unfold generate_cache_metadata at h
    dsimp only at h
    simp only [Res.ok.injEq] at h
    obtain ⟨hs, hf0⟩ := h
    have hwf2 : WfNames f2 := by
      have hw := wf_cachePathsLoop ctx (pjoin ctx.tmpRoot "nix-gl-host")
        cache_dir cc.paths
        ((fs.makedirs ctx.tmpRoot).makedirs (pjoin ctx.tmpRoot "nix-gl-host"))
        [] (wf_makedirs (wf_makedirs hwf _) _)
      rw [hl] at hw
      exact hw
    have hpre2 : PreservedOutside ctx.tmpRoot f2 fs := by
      have hloop := cachePathsLoop_preserved ctx cache_dir htcd cc.paths
        ((fs.makedirs ctx.tmpRoot).makedirs (pjoin ctx.tmpRoot "nix-gl-host"))
        []
      rw [hl] at hloop
      exact PreservedOutside.trans (PreservedOutside.trans
        (makedirs_preserved fs (underB_refl ctx.tmpRoot))
        (makedirs_preserved _ htcd)) hloop
    have hisd2 : isdir f2 cache_dir = true := by
      rw [(hpre2 cache_dir hd2).1]
      exact hcache
    rw [hcd] at hf0
    have hpreG : PreservedOutside ctx.tmpRoot
        (generate_nvidia_egl_config_files ctx
          ((f2.writeFile (pjoin ctx.tmpRoot "nix-gl-host") "cache.json"
            (FContent.doc cc.to_json) ctx.now).writeFile
            (pjoin ctx.tmpRoot "nix-gl-host") "ld_library_path"
            (FContent.raw (generate_cache_ld_library_path
              (List.map (fun p => pjoin cache_dir p) cps))) ctx.now)
          (pjoin (pjoin ctx.tmpRoot "nix-gl-host") "egl-confs")) f2 :=
      PreservedOutside.trans
        (PreservedOutside.trans (writeFile_preserved f2 _ _ _ htcd)
          (writeFile_preserved _ _ _ _ htcd))
        (egl_confs_preserved ctx _ (under_pjoin htcd _))
    have hisdG : isdir (generate_nvidia_egl_config_files ctx
        ((f2.writeFile (pjoin ctx.tmpRoot "nix-gl-host") "cache.json"
          (FContent.doc cc.to_json) ctx.now).writeFile
          (pjoin ctx.tmpRoot "nix-gl-host") "ld_library_path"
          (FContent.raw (generate_cache_ld_library_path
            (List.map (fun p => pjoin cache_dir p) cps))) ctx.now)
        (pjoin (pjoin ctx.tmpRoot "nix-gl-host") "egl-confs")) cache_dir
        = true := by
      rw [(hpreG cache_dir hd2).1]
      exact hisd2
    have hex : existsP (generate_nvidia_egl_config_files ctx
        ((f2.writeFile (pjoin ctx.tmpRoot "nix-gl-host") "cache.json"
          (FContent.doc cc.to_json) ctx.now).writeFile
          (pjoin ctx.tmpRoot "nix-gl-host") "ld_library_path"
          (FContent.raw (generate_cache_ld_library_path
            (List.map (fun p => pjoin cache_dir p) cps))) ctx.now)
        (pjoin (pjoin ctx.tmpRoot "nix-gl-host") "egl-confs")) cache_dir
        = true := by
      simp [existsP, hisdG]
    rw [if_pos hex] at hf0
    rw [← hf0, ← hs]
    exact promote_content ctx f2 cache_dir
      (pjoin ctx.tmpRoot "nix-gl-host")
      (generate_cache_ld_library_path
        (List.map (fun p => pjoin cache_dir p) cps))
      cc.to_json hwf2 htcd hd1 hd2

/-! ## Scan stability across runs -/

/-- The unfiltered candidate directories of `get_ld_paths` when no loader
configuration file exists and `PREFIX` is unset: the `LD_LIBRARY_PATH`
entries followed by the standard system directories (spec-side helper used
to state the idempotence hypotheses). -/
def ldCandidates (ctx : Ctx) : List String :=
  (match ctx.ldLibraryPath with
   | some s => if s.isEmpty then [] else pySplit ':' s
   | none => [])
  ++ ["/lib", "/usr/lib", "/lib64", "/usr/lib64"]

theorem agree_existsP {a b : Fs} {p : String} (h : agreeAt a b p) :
    existsP a p = existsP b p := by
  unfold existsP isfile
  rw [h.1, h.2.1]

theorem get_ld_paths_stable (ctx : Ctx) (fs1 fs : Fs)
    (hconf : existsP fs "/etc/ld.so.conf" = false)
    (hconf1 : agreeAt fs1 fs "/etc/ld.so.conf")
    (hprfx : ctx.prfx = none)
    (hdirs : ∀ d ∈ ldCandidates ctx, agreeAt fs1 fs d) :
    get_ld_paths ctx fs1 = get_ld_paths ctx fs := by
  have hc1 : existsP fs1 "/etc/ld.so.conf" = false :=
    (agree_existsP hconf1).trans hconf
  unfold get_ld_paths
  rw [hprfx, hc1, hconf]
  simp only [Bool.false_eq_true, if_false, List.append_nil, List.nil_append]
  apply List.filter_congr
  intro d hd
  refine (hdirs d ?_).1
  simpa [ldCandidates] using hd

theorem filterMap_congr_mem {α β : Type} (l : List α) (f g : α → Option β)
    (h : ∀ a ∈ l, f a = g a) : l.filterMap f = l.filterMap g := by
  induction l with
  | nil => rfl
  | cons a l ih =>
    simp only [List.filterMap_cons, h a (List.mem_cons_self a l),
      ih (fun b hb => h b (List.mem_cons_of_mem a hb))]

theorem resolve_stable (fs1 fs : Fs) (d : String) (pats : List DsoPattern)
    (hd : agreeAt fs1 fs d) (hsub : ∀ n, agreeAt fs1 fs (pjoin d n)) :
    resolve_libraries fs1 d pats = resolve_libraries fs d pats := by
  have hls : listdir fs1 d = listdir fs d := by
    unfold listdir
    rw [hd.1, hd.2.2.1, hd.2.2.2]
  unfold resolve_libraries
  rw [hls]
  cases listdir fs d with
  | error e => rfl
  | ok names =>
    dsimp only
    congr 1
    apply filterMap_congr_mem
    intro a _
    dsimp only
    rw [(hsub a).2.1]

theorem scan_dsos_stable (fs1 fs : Fs) (d : String)
    (hd : agreeAt fs1 fs d) (hsub : ∀ n, agreeAt fs1 fs (pjoin d n)) :
    scan_dsos_from_dir fs1 d = scan_dsos_from_dir fs d := by
  unfold scan_dsos_from_dir
  rw [resolve_stable fs1 fs d NVIDIA_DSO_PATTERNS hd hsub,
    resolve_stable fs1 fs d NVIDIA_CUDA_DSO_PATTERNS hd hsub,
    resolve_stable fs1 fs d NVIDIA_GLX_DSO_PATTERNS hd hsub,
    resolve_stable fs1 fs d NVIDIA_EGL_DSO_PATTERNS hd hsub]

theorem scanAll_stable (fs1 fs : Fs) :
    ∀ ds : List String,
      (∀ d ∈ ds, agreeAt fs1 fs d ∧ ∀ n, agreeAt fs1 fs (pjoin d n)) →
      scanAll fs1 ds = scanAll fs ds := by
  intro ds
  induction ds with
  | nil => intro _; rfl
  | cons d rest ih =>
    intro hds
    obtain ⟨hd, hsub⟩ := hds d (List.mem_cons_self d rest)
    simp only [scanAll]
    rw [scan_dsos_stable fs1 fs d hd hsub,
      ih (fun d' hd' => hds d' (List.mem_cons_of_mem d hd'))]

theorem get_ld_paths_mem (ctx : Ctx) (fs : Fs)
    (hconf : existsP fs "/etc/ld.so.conf" = false)
    (hprfx : ctx.prfx = none) :
    ∀ d ∈ get_ld_paths ctx fs, d ∈ ldCandidates ctx := by
  intro d hd
  unfold get_ld_paths at hd
  rw [hprfx, hconf] at hd
  simp only [Bool.false_eq_true, if_false, List.append_nil,
    List.nil_append] at hd
  have hm := List.mem_filter.mp hd
  simpa [ldCandidates] using hm.1

theorem up_to_date_of_doc (fs : Fs) (c : CacheDirContent) (p : String)
    (h : readFileOpt fs p = some (FContent.doc c.to_json)) :
    is_dso_cache_up_to_date fs c p = true := by
  unfold is_dso_cache_up_to_date
  rw [h]
  simp [parseCDC, loads, Bind.bind, Except.bind, cdc_from_to, cdcEq_refl]

/-- C9: running the pipeline twice against an unchanged host filesystem is
idempotent.  The snapshot serialization round-trips
(`from_json (to_json c) = .ok c` for every snapshot `c`); after a first
successful run (whether it rebuilt or reused the cache) the second run's
scan yields the same snapshot, its up-to-date check returns `true`, the
cached `ld_library_path` file is present, and the second run returns the
same environment without touching the filesystem at all
(`nvidia_main ctx fs1 … = .ok env1 fs1`) — in particular it performs no
copy or patch operation and the metadata and search-path files stay
byte-identical.  The hypotheses say that the temporary root, the cache
root and the scanned candidate directories are pairwise non-overlapping
directories, that no `/etc/ld.so.conf` and no `PREFIX` configuration is
present, that file names in the model are slash-free, and that the cache
root exists (cli.py:60 creates it before calling `nvidia_main`). -/
theorem c9_idempotence (ctx : Ctx) (fs : Fs) (cache_dir : String)
    (v : List String) (pr : Bool) (env1 : NixHostEnv) (fs1 : Fs)
    (hwf : WfNames fs)
    (hcache : isdir fs cache_dir = true)
    (hd1 : underB cache_dir ctx.tmpRoot = false)
    (hd2 : underB ctx.tmpRoot cache_dir = false)
    (hcd : pjoin (dirnameOf cache_dir)
      (basenameOf (pjoin ctx.tmpRoot "nix-gl-host")) = cache_dir)
    (hconf : existsP fs "/etc/ld.so.conf" = false)
    (hct : underB ctx.tmpRoot "/etc/ld.so.conf" = false)
    (hcc : underB cache_dir "/etc/ld.so.conf" = false)
    (hprfx : ctx.prfx = none)
    (hcand : ∀ d ∈ ldCandidates ctx,
      underB ctx.tmpRoot d = false ∧ underB d ctx.tmpRoot = false ∧
      underB cache_dir d = false ∧ underB d cache_dir = false)
    (hrun1 : nvidia_main ctx fs cache_dir v pr = .ok env1 fs1) :
    (∀ c : CacheDirContent, CacheDirContent.from_json c.to_json = .ok c)
    ∧ (∃ lps : List LibraryPath,
        scanAll fs1 (get_ld_paths ctx fs1) = .ok lps
        ∧ is_dso_cache_up_to_date fs1 ⟨lps, CACHE_VERSION⟩
            (pjoin cache_dir "cache.json") = true
        ∧ isfile fs1 (pjoin cache_dir "ld_library_path") = true)
    ∧ nvidia_main ctx fs1 cache_dir v pr = .ok env1 fs1 := by
  refine ⟨fun c => cdc_from_to c, ?_⟩
  have horig := hrun1
  unfold nvidia_main at hrun1
  dsimp only at hrun1
  cases hscan : scanAll fs (get_ld_paths ctx fs) with
  | error e =>
    rw [hscan] at hrun1
    exact Res.noConfusion hrun1
  | ok lps =>
    rw [hscan] at hrun1
    dsimp only at hrun1
    cases hcond : (!(is_dso_cache_up_to_date fs ⟨lps, CACHE_VERSION⟩
        (pjoin cache_dir "cache.json"))
        || !(isfile fs (pjoin cache_dir "ld_library_path"))) with
    | false =>
      have hup1 : is_dso_cache_up_to_date fs ⟨lps, CACHE_VERSION⟩
          (pjoin cache_dir "cache.json") = true := by
        cases h : is_dso_cache_up_to_date fs ⟨lps, CACHE_VERSION⟩
            (pjoin cache_dir "cache.json") with
        | true => rfl
        | false => rw [h] at hcond; simp at hcond
      have hif1 : isfile fs (pjoin cache_dir "ld_library_path") = true := by
        cases h : isfile fs (pjoin cache_dir "ld_library_path") with
        | true => rfl
        | false => rw [h] at hcond; simp at hcond
      rw [hcond, if_neg Bool.false_ne_true] at hrun1
      cases hfa : fileAt fs (pjoin cache_dir "ld_library_path") with
      | none =>
        unfold isfile at hif1
        rw [hfa] at hif1
        simp at hif1
      | some ent =>
        have hrf : readFileOpt fs (pjoin cache_dir "ld_library_path")
            = some ent.content := by
          unfold readFileOpt
          rw [hfa]
          rfl
        unfold reuseBranch at hrun1
        rw [hrf] at hrun1
        unfold nvidiaTail at hrun1
        dsimp only at hrun1
        cases hse : ent.content.text.isEmpty with
        | true =>
          rw [hse, if_pos rfl] at hrun1
          exact Res.noConfusion hrun1
        | false =>
          rw [hse, if_neg Bool.false_ne_true] at hrun1
          simp only [Res.ok.injEq] at hrun1
          obtain ⟨henv, hfs⟩ := hrun1
          subst hfs
          exact ⟨⟨lps, hscan, hup1, hif1⟩, horig⟩
    | true =>
      rw [hcond, if_pos rfl] at hrun1
      unfold nvidiaTail at hrun1
      cases hrb : rebuildBranch ctx fs cache_dir ⟨lps, CACHE_VERSION⟩ with
      | fail e f0 =>
        rw [hrb] at hrun1
        exact Res.noConfusion hrun1
      | ok s f0 =>
        rw [hrb] at hrun1
        dsimp only at hrun1
        cases hse : s.isEmpty with
        | true =>
          rw [hse, if_pos rfl] at hrun1
          exact Res.noConfusion hrun1
        | false =>
          rw [hse, if_neg Bool.false_ne_true] at hrun1
          simp only [Res.ok.injEq] at hrun1
          obtain ⟨henv, hfs⟩ := hrun1
          subst hfs
          have hpres : ∀ p, underB ctx.tmpRoot p = false →
              underB cache_dir p = false → agreeAt f0 fs p := by
            intro p h1 h2
            exact rebuild_ok_preserved ctx fs cache_dir ⟨lps, CACHE_VERSION⟩
              s f0 hrb p h1 h2 (by rw [hcd]; exact h2)
          have hcontent := rebuild_ok_content ctx fs cache_dir
            ⟨lps, CACHE_VERSION⟩ s f0 hwf hcache hd1 hd2 hcd hrb
          have hconf1 : agreeAt f0 fs "/etc/ld.so.conf" := hpres _ hct hcc
          have hldp : get_ld_paths ctx f0 = get_ld_paths ctx fs :=
            get_ld_paths_stable ctx f0 fs hconf hconf1 hprfx
              (fun d hd => hpres d (hcand d hd).1 (hcand d hd).2.2.1)
          have hsub : ∀ d ∈ get_ld_paths ctx fs,
              agreeAt f0 fs d ∧ ∀ n, agreeAt f0 fs (pjoin d n) := by
            intro d hd
            obtain ⟨k1, k2, k3, k4⟩ :=
              hcand d (get_ld_paths_mem ctx fs hconf hprfx d hd)
            exact ⟨hpres d k1 k3,
              fun n => hpres (pjoin d n) (not_under_pjoin n k1 k2)
                (not_under_pjoin n k3 k4)⟩
          have hscan2 : scanAll f0 (get_ld_paths ctx f0) = .ok lps := by
            rw [hldp, scanAll_stable f0 fs _ hsub, hscan]
          have hrf2 : readFileOpt f0 (pjoin cache_dir "cache.json")
              = some (FContent.doc
                  (CacheDirContent.to_json ⟨lps, CACHE_VERSION⟩)) := by
            unfold readFileOpt
            rw [hcontent.1]
            rfl
          have hup2 : is_dso_cache_up_to_date f0 ⟨lps, CACHE_VERSION⟩
              (pjoin cache_dir "cache.json") = true :=
            up_to_date_of_doc f0 ⟨lps, CACHE_VERSION⟩ _ hrf2
          have hif2 : isfile f0 (pjoin cache_dir "ld_library_path")
              = true := by
            unfold isfile
            rw [hcontent.2]
            rfl
          have hrfL : readFileOpt f0 (pjoin cache_dir "ld_library_path")
              = some (FContent.raw s) := by
            unfold readFileOpt
            rw [hcontent.2]
            rfl
          refine ⟨⟨lps, hscan2, hup2, hif2⟩, ?_⟩
          unfold nvidia_main
          dsimp only
          rw [hscan2]
          dsimp only
          rw [hup2, hif2]
          simp only [Bool.not_true, Bool.or_self]
          rw [if_neg Bool.false_ne_true]
          unfold reuseBranch
          rw [hrfL]
          unfold nvidiaTail
          dsimp only [FContent.text]
          rw [hse, if_neg Bool.false_ne_true]
          rw [henv]

def ctxC9 : Ctx :=
  { patchExit := fun _ => 0
    hashHex := fun _ => "h"
    tmpRoot := "/t"
    ldLibraryPath := some "/drv"
    prfx := none
    now := 7 }

def fsC9 : Fs :=
  { dirs := ["/drv", "/hc/nix-gl-host"]
    unreadable := []
    files := [⟨"/drv", "libnvidia-glcore.so.1", .raw "bits", 1, 4⟩] }

theorem c9_idempotence_witness :
    ∃ (env1 : NixHostEnv) (fs1 : Fs),
      nvidia_main ctxC9 fsC9 "/hc/nix-gl-host" [] false = .ok env1 fs1
      ∧ ((∀ c : CacheDirContent, CacheDirContent.from_json c.to_json = .ok c)
        ∧ (∃ lps : List LibraryPath,
            scanAll fs1 (get_ld_paths ctxC9 fs1) = .ok lps
            ∧ is_dso_cache_up_to_date fs1 ⟨lps, CACHE_VERSION⟩
                (pjoin "/hc/nix-gl-host" "cache.json") = true
            ∧ isfile fs1 (pjoin "/hc/nix-gl-host" "ld_library_path") = true)
        ∧ nvidia_main ctxC9 fs1 "/hc/nix-gl-host" [] false = .ok env1 fs1) := by
  refine ⟨_, _, rfl, c9_idempotence ctxC9 fsC9 "/hc/nix-gl-host" [] false _ _
    (by unfold WfNames; decide) rfl rfl rfl rfl rfl rfl rfl rfl
    (by decide) rfl⟩

end NixGlHost
